import Mathlib

/-!
Shallow embedding of the pylas point-record engine and read/write pipeline.

The definitions below are translated from the repository sources:
the legacy aggregate `pylas/lasdata.py` (LasData), the streaming writer
`pylas/laswriter.py` (LasWriter), the point records `pylas/point/record.py`
(PackedPointRecord and the scale helpers) and `pylas/lasdatas/base.py` (LasBase).
Machine integers become Nat (raw bit patterns) or Int, numpy doubles used for
scales/offsets become `Rat` (exact field arithmetic standing in for IEEE doubles),
byte streams become `List Nat`, and fallible code returns `Option`/`Except` or an
explicit error component.

A few helpers that the sources import from modules which are not part of the
source tree (pointdimensions, pointdata, packing, the raw header, the VLR codec,
the ScaledArrayView) are modelled from the specification; each such definition
carries a doc comment starting with `Modelled from the spec:`.
-/

namespace Pylas

/-! ## Bit positions of the sub-fields of point formats 0-5 -/

/-- Modelled from the spec: bit positions of the sub-fields packed into the composed
`bit_fields` byte (return_number bits 0-2, number_of_returns bits 3-5,
scan_direction_flag bit 6, edge_of_flight_line bit 7) and the `raw_classification`
byte (classification bits 0-4, synthetic bit 5, key_point bit 6, withheld bit 7).
The pointdimensions module that holds these constants is not under src/. -/
def RETURN_NUMBER_LOW_BIT : Nat := 0

def RETURN_NUMBER_HIGH_BIT : Nat := 3

def NUMBER_OF_RETURNS_LOW_BIT : Nat := 3

def NUMBER_OF_RETURNS_HIGH_BIT : Nat := 6

def SCAN_DIRECTION_FLAG_LOW_BIT : Nat := 6

def SCAN_DIRECTION_FLAG_HIGH_BIT : Nat := 7

def EDGE_OF_FLIGHT_LINE_LOW_BIT : Nat := 7

def EDGE_OF_FLIGHT_LINE_HIGH_BIT : Nat := 8

def CLASSIFICATION_LOW_BIT : Nat := 0

def CLASSIFICATION_HIGH_BIT : Nat := 5

def SYNTHETIC_LOW_BIT : Nat := 5

def SYNTHETIC_HIGH_BIT : Nat := 6

def KEY_POINT_LOW_BIT : Nat := 6

def KEY_POINT_HIGH_BIT : Nat := 7

def WITHHELD_LOW_BIT : Nat := 7

def WITHHELD_HIGH_BIT : Nat := 8

/-- Modelled from the spec: pointdimensions.bit_transform (module absent from src/)
extracts the sub-field stored in bits [lo, hi) of a composed byte.  The spec fixes
read = shift+mask; on Nat the shift by lo is division by 2 ^ lo and the mask of the
field width is mod 2 ^ (hi - lo). -/
def bit_transform (b lo hi : Nat) : Nat := (b / 2 ^ lo) % 2 ^ (hi - lo)

/-- Modelled from the spec: writing a sub-field value into bits [lo, hi) of a composed
byte is mask+or (packing module absent from src/).  The three masked segments (bits
below lo, the new field, bits at hi and above) are disjoint, so the bitwise or is
addition of the shifted masked parts. -/
def pack_into (composed v lo hi : Nat) : Nat :=
  composed % 2 ^ lo + v % 2 ^ (hi - lo) * 2 ^ lo + 2 ^ hi * (composed / 2 ^ hi)

/-- Modelled from the spec: pointdata.bitpack (module absent from src/) applied, as in
LasData.repack_classification, to the four raw_classification sub-fields of one point:
each value is masked to its field width and shifted to its low bit, the results or-ed
into one byte (the segments are disjoint, so or is addition).  The synthetic, key_point
and withheld arrays hold booleans after the astype('bool') in LasData, hence Bool here. -/
def bitpack_classification (c : Nat) (s k w : Bool) : Nat :=
  c % 2 ^ (CLASSIFICATION_HIGH_BIT - CLASSIFICATION_LOW_BIT) * 2 ^ CLASSIFICATION_LOW_BIT
  + s.toNat % 2 ^ (SYNTHETIC_HIGH_BIT - SYNTHETIC_LOW_BIT) * 2 ^ SYNTHETIC_LOW_BIT
  + k.toNat % 2 ^ (KEY_POINT_HIGH_BIT - KEY_POINT_LOW_BIT) * 2 ^ KEY_POINT_LOW_BIT
  + w.toNat % 2 ^ (WITHHELD_HIGH_BIT - WITHHELD_LOW_BIT) * 2 ^ WITHHELD_LOW_BIT

/-- Modelled from the spec: pointdata.bitpack applied, as in the (commented-out)
LasData.repack_bit_fields, to the four bit_fields sub-fields of one point. -/
def bitpack_bit_fields (rn nr sd ed : Nat) : Nat :=
  rn % 2 ^ (RETURN_NUMBER_HIGH_BIT - RETURN_NUMBER_LOW_BIT) * 2 ^ RETURN_NUMBER_LOW_BIT
  + nr % 2 ^ (NUMBER_OF_RETURNS_HIGH_BIT - NUMBER_OF_RETURNS_LOW_BIT) * 2 ^ NUMBER_OF_RETURNS_LOW_BIT
  + sd % 2 ^ (SCAN_DIRECTION_FLAG_HIGH_BIT - SCAN_DIRECTION_FLAG_LOW_BIT) * 2 ^ SCAN_DIRECTION_FLAG_LOW_BIT
  + ed % 2 ^ (EDGE_OF_FLIGHT_LINE_HIGH_BIT - EDGE_OF_FLIGHT_LINE_LOW_BIT) * 2 ^ EDGE_OF_FLIGHT_LINE_LOW_BIT

/-! ## Little-endian byte serialization helpers -/

/-- Little-endian encoding of a Nat into w bytes (the raw bit pattern of a machine
integer of width w, overflow truncated as numpy would store it). -/
def encLE : Nat → Nat → List Nat
  | 0, _ => []
  | w + 1, n => n % 256 :: encLE w (n / 256)

/-- Little-endian decoding of a byte list back into a Nat. -/
def decLE : List Nat → Nat
  | [] => 0
  | b :: bs => b + 256 * decLE bs

/-- Reads one little-endian field of w bytes from the front of a byte stream and
returns the value together with the remaining bytes. -/
def parseField (w : Nat) (bs : List Nat) : Nat × List Nat := (decLE (bs.take w), bs.drop w)

/-! ## Point records of point format 0 -/

/-- One packed point of point format 0, each field holding the raw (unscaled,
unsigned) bit pattern of the corresponding on-disk machine integer.
Modelled from the spec: the dimension registry fixing this record layout
(X, Y, Z as 4-byte ints, intensity 2 bytes, the two composed bytes, scan_angle_rank,
user_data, point_source_id 2 bytes; 20 bytes in total) is not under src/. -/
structure PointRec0 where
  X : Nat
  Y : Nat
  Z : Nat
  intensity : Nat
  bit_fields : Nat
  raw_classification : Nat
  scan_angle_rank : Nat
  user_data : Nat
  point_source_id : Nat
deriving DecidableEq

/-- Field ranges of a well-formed format-0 point: every stored pattern fits its
on-disk width. -/
def wfPoint0 (p : PointRec0) : Prop :=
  p.X < 256 ^ 4 ∧ p.Y < 256 ^ 4 ∧ p.Z < 256 ^ 4 ∧ p.intensity < 256 ^ 2 ∧
  p.bit_fields < 256 ^ 1 ∧ p.raw_classification < 256 ^ 1 ∧ p.scan_angle_rank < 256 ^ 1 ∧
  p.user_data < 256 ^ 1 ∧ p.point_source_id < 256 ^ 2

instance (p : PointRec0) : Decidable (wfPoint0 p) := by unfold wfPoint0; infer_instance

/-- Serializes one format-0 point into its 20 on-disk bytes. -/
def encodePoint0 (p : PointRec0) : List Nat :=
  encLE 4 p.X ++ encLE 4 p.Y ++ encLE 4 p.Z ++ encLE 2 p.intensity ++
  encLE 1 p.bit_fields ++ encLE 1 p.raw_classification ++ encLE 1 p.scan_angle_rank ++
  encLE 1 p.user_data ++ encLE 2 p.point_source_id

/-- Parses one format-0 point from the front of a byte stream. -/
def decodePoint0 (bs : List Nat) : PointRec0 × List Nat :=
  let r1 := parseField 4 bs
  let r2 := parseField 4 r1.2
  let r3 := parseField 4 r2.2
  let r4 := parseField 2 r3.2
  let r5 := parseField 1 r4.2
  let r6 := parseField 1 r5.2
  let r7 := parseField 1 r6.2
  let r8 := parseField 1 r7.2
  let r9 := parseField 2 r8.2
  (⟨r1.1, r2.1, r3.1, r4.1, r5.1, r6.1, r7.1, r8.1, r9.1⟩, r9.2)

/-- Modelled from the spec: pointdata.NumpyPointData.from_stream (module absent from
src/) reads count * stride bytes and fails when the stream is too short.  Parses
count format-0 points from the stream, returning the points and the remaining bytes. -/
def decodePoints0 : Nat → List Nat → Option (List PointRec0 × List Nat)
  | 0, bs => some ([], bs)
  | n + 1, bs =>
    if 20 ≤ bs.length then
      let r := decodePoint0 bs
      match decodePoints0 n r.2 with
      | some (ps, rest) => some (r.1 :: ps, rest)
      | none => none
    else none

/-! ## VLRs, as the legacy LasData sees them -/

/-- Modelled from the spec: a raw VLR of the vlr module (absent from src/): a 54-byte
header (reserved 2, user_id 16, record_id 2, record_length 2, description 32) followed
by the payload. -/
structure VLRrec where
  user_id : List Nat
  record_id : Nat
  description : List Nat
  payload : List Nat
deriving DecidableEq

/-- Structural invariants of an in-memory VLR: the fixed-width header slots have their
on-disk lengths and the payload length fits its 2-byte field. -/
def wfVLR (v : VLRrec) : Prop :=
  v.user_id.length = 16 ∧ v.record_id < 256 ^ 2 ∧ v.description.length = 32 ∧
  v.payload.length < 256 ^ 2

instance (v : VLRrec) : Decidable (wfVLR v) := by unfold wfVLR; infer_instance

/-- Serializes one VLR: 54 header bytes then the payload. -/
def encodeVLR (v : VLRrec) : List Nat :=
  encLE 2 0 ++ v.user_id ++ encLE 2 v.record_id ++ encLE 2 v.payload.length ++
  v.description ++ v.payload

/-- Parses one VLR from the front of a byte stream. -/
def decodeVLR (bs : List Nat) : VLRrec × List Nat :=
  let r0 := parseField 2 bs
  let uid := r0.2.take 16
  let bs1 := r0.2.drop 16
  let rid := parseField 2 bs1
  let rlen := parseField 2 rid.2
  let desc := rlen.2.take 32
  let bs2 := rlen.2.drop 32
  (⟨uid, rid.1, desc, bs2.take rlen.1⟩, bs2.drop rlen.1)

/-- Parses n VLRs in sequence (VLRList.read_from with num_to_read = n). -/
def decodeVLRs : Nat → List Nat → List VLRrec × List Nat
  | 0, bs => ([], bs)
  | n + 1, bs =>
    let r := decodeVLR bs
    let rs := decodeVLRs n r.2
    (r.1 :: rs.1, rs.2)

/-- VLRList.total_size_in_bytes: 54 header bytes plus the payload, summed over the
list. -/
def vlrTotalSize (vlrs : List VLRrec) : Nat := (vlrs.map (fun v => 54 + v.payload.length)).sum

/-! ## The legacy header -/

/-- Modelled from the spec: the fixed raw header (rawheader module absent from src/),
reduced to the fields the legacy read/write path touches; the byte layout below is a
fixed sequential encoding of those fields. -/
structure LHeader where
  point_data_format_id : Nat
  header_size : Nat
  offset_to_point_data : Nat
  number_of_vlr : Nat
  number_of_point_records : Nat
deriving DecidableEq

/-- Serializes the reduced header fields in a fixed order and width. -/
def encodeLHeader (h : LHeader) : List Nat :=
  encLE 1 h.point_data_format_id ++ encLE 2 h.header_size ++
  encLE 4 h.offset_to_point_data ++ encLE 4 h.number_of_vlr ++
  encLE 4 h.number_of_point_records

/-- Parses the reduced header back from a byte stream. -/
def decodeLHeader (bs : List Nat) : LHeader × List Nat :=
  let r1 := parseField 1 bs
  let r2 := parseField 2 r1.2
  let r3 := parseField 4 r2.2
  let r4 := parseField 4 r3.2
  let r5 := parseField 4 r4.2
  (⟨r1.1, r2.1, r3.1, r4.1, r5.1⟩, r5.2)

/-- Modelled from the spec: compression.is_point_format_compressed (module absent from
src/): a compressed on-disk format id is distinguished by the high bit. -/
def is_point_format_compressed (fmt : Nat) : Bool := 128 ≤ fmt

/-! ## The legacy LasData aggregate (pylas/lasdata.py) -/

/-- The legacy LasData aggregate: header, VLR list, packed point buffer, and the
unpacked sub-field arrays that LasData.__init__ derives from the two composed bytes
(return_number, number_of_returns, scan_direction_flag, edge_of_flight_line from
bit_fields; classification plus the three astype('bool') flag arrays from
raw_classification).  The arrays are plain members: mutating them does not touch the
packed buffer until a repack runs. -/
structure LasDataM where
  header : LHeader
  vlrs : List VLRrec
  points : List PointRec0
  return_number : List Nat
  number_of_returns : List Nat
  scan_direction_flag : List Nat
  edge_of_flight_line : List Nat
  classification : List Nat
  synthetic : List Bool
  key_point : List Bool
  withheld : List Bool
deriving DecidableEq

/-- Element-wise repacking of the four classification sub-field arrays into the
raw_classification byte of each point (numpy writes the packed column back into the
structured array).  The catch-all row is unreachable when the arrays have the record
length, which LasData.__init__ guarantees. -/
def packClassList : List PointRec0 → List Nat → List Bool → List Bool → List Bool →
    List PointRec0
  | p :: ps, c :: cs, s :: ss, k :: ks, w :: ws =>
    { p with raw_classification := bitpack_classification c s k w } ::
      packClassList ps cs ss ks ws
  | ps, _, _, _, _ => ps

/-- LasData.repack_classification: packs classification, synthetic, key_point and
withheld back into the raw_classification column. -/
def LasDataM.repack_classification (L : LasDataM) : LasDataM :=
  { L with points := packClassList L.points L.classification L.synthetic L.key_point L.withheld }

/-- Element-wise repacking of the four bit_fields sub-field arrays into the bit_fields
byte of each point. -/
def packBitFieldsList : List PointRec0 → List Nat → List Nat → List Nat → List Nat →
    List PointRec0
  | p :: ps, rn :: rns, nr :: nrs, sd :: sds, ed :: eds =>
    { p with bit_fields := bitpack_bit_fields rn nr sd ed } ::
      packBitFieldsList ps rns nrs sds eds
  | ps, _, _, _, _ => ps

/-- LasData.repack_bit_fields: packs return_number, number_of_returns,
scan_direction_flag and edge_of_flight_line back into the bit_fields column.
The call to this method in LasData.write_to is commented out in the source. -/
def LasDataM.repack_bit_fields (L : LasDataM) : LasDataM :=
  { L with points := (packBitFieldsList L.points L.return_number L.number_of_returns
      L.scan_direction_flag L.edge_of_flight_line) }

/-- LasData.write_to with do_compress=False: repacks raw_classification (the
repack_bit_fields line is commented out in the source), recomputes number_of_vlr and
offset_to_point_data, then emits header bytes, VLR bytes and the point buffer. -/
def LasDataM.write_to (L : LasDataM) : List Nat :=
  let L := L.repack_classification
  let h := { L.header with
    number_of_vlr := L.vlrs.length,
    offset_to_point_data := L.header.header_size + vlrTotalSize L.vlrs }
  encodeLHeader h ++ L.vlrs.flatMap encodeVLR ++ L.points.flatMap encodePoint0

/-- LasData.__init__ reading from a stream, uncompressed path: parse the header, parse
number_of_vlr VLRs, read number_of_point_records points, then derive the eight unpacked
sub-field arrays with bit_transform (the three flag arrays through astype('bool'),
which maps a field value to the test against zero).  The compressed path (high bit of
the format id set) is outside this model and yields none. -/
def readLasData (bs : List Nat) : Option LasDataM :=
  let rh := decodeLHeader bs
  let h := rh.1
  if is_point_format_compressed h.point_data_format_id then none
  else
    let rv := decodeVLRs h.number_of_vlr rh.2
    match decodePoints0 h.number_of_point_records rv.2 with
    | none => none
    | some (ps, _) =>
      some
        { header := h
          vlrs := rv.1
          points := ps
          return_number := ps.map fun p =>
            bit_transform p.bit_fields RETURN_NUMBER_LOW_BIT RETURN_NUMBER_HIGH_BIT
          number_of_returns := ps.map fun p =>
            bit_transform p.bit_fields NUMBER_OF_RETURNS_LOW_BIT NUMBER_OF_RETURNS_HIGH_BIT
          scan_direction_flag := ps.map fun p =>
            bit_transform p.bit_fields SCAN_DIRECTION_FLAG_LOW_BIT SCAN_DIRECTION_FLAG_HIGH_BIT
          edge_of_flight_line := ps.map fun p =>
            bit_transform p.bit_fields EDGE_OF_FLIGHT_LINE_LOW_BIT EDGE_OF_FLIGHT_LINE_HIGH_BIT
          classification := ps.map fun p =>
            bit_transform p.raw_classification CLASSIFICATION_LOW_BIT CLASSIFICATION_HIGH_BIT
          synthetic := ps.map fun p =>
            bit_transform p.raw_classification SYNTHETIC_LOW_BIT SYNTHETIC_HIGH_BIT ≠ 0
          key_point := ps.map fun p =>
            bit_transform p.raw_classification KEY_POINT_LOW_BIT KEY_POINT_HIGH_BIT ≠ 0
          withheld := ps.map fun p =>
            bit_transform p.raw_classification WITHHELD_LOW_BIT WITHHELD_HIGH_BIT ≠ 0 }

/-- In-sync unpacked arrays: each of the eight sub-field arrays equals what
LasData.__init__ derives from the packed buffer.  This is the state right after
reading, before any user mutation of the arrays. -/
def LasDataM.arraysInSync (L : LasDataM) : Prop :=
  L.return_number = (L.points.map fun p =>
    bit_transform p.bit_fields RETURN_NUMBER_LOW_BIT RETURN_NUMBER_HIGH_BIT) ∧
  L.number_of_returns = (L.points.map fun p =>
    bit_transform p.bit_fields NUMBER_OF_RETURNS_LOW_BIT NUMBER_OF_RETURNS_HIGH_BIT) ∧
  L.scan_direction_flag = (L.points.map fun p =>
    bit_transform p.bit_fields SCAN_DIRECTION_FLAG_LOW_BIT SCAN_DIRECTION_FLAG_HIGH_BIT) ∧
  L.edge_of_flight_line = (L.points.map fun p =>
    bit_transform p.bit_fields EDGE_OF_FLIGHT_LINE_LOW_BIT EDGE_OF_FLIGHT_LINE_HIGH_BIT) ∧
  L.classification = (L.points.map fun p =>
    bit_transform p.raw_classification CLASSIFICATION_LOW_BIT CLASSIFICATION_HIGH_BIT) ∧
  L.synthetic = (L.points.map fun p =>
    decide (bit_transform p.raw_classification SYNTHETIC_LOW_BIT SYNTHETIC_HIGH_BIT ≠ 0)) ∧
  L.key_point = (L.points.map fun p =>
    decide (bit_transform p.raw_classification KEY_POINT_LOW_BIT KEY_POINT_HIGH_BIT ≠ 0)) ∧
  L.withheld = (L.points.map fun p =>
    decide (bit_transform p.raw_classification WITHHELD_LOW_BIT WITHHELD_HIGH_BIT ≠ 0))

instance (L : LasDataM) : Decidable L.arraysInSync := by
  unfold LasDataM.arraysInSync; infer_instance

/-- Well-formed LasData aggregate: an uncompressed format id, field widths respected,
the header point count in sync with the buffer (as after reading), serialized sizes
fitting their header fields, and the unpacked arrays in sync with the buffer. -/
def wfLasData (L : LasDataM) : Prop :=
  L.header.point_data_format_id < 128 ∧
  L.header.header_size < 256 ^ 2 ∧
  L.header.header_size + vlrTotalSize L.vlrs < 256 ^ 4 ∧
  L.vlrs.length < 256 ^ 4 ∧
  L.header.number_of_point_records = L.points.length ∧
  L.points.length < 256 ^ 4 ∧
  (∀ p ∈ L.points, wfPoint0 p) ∧
  (∀ v ∈ L.vlrs, wfVLR v) ∧
  L.arraysInSync

instance (L : LasDataM) : Decidable (wfLasData L) := by
  unfold wfLasData; infer_instance

/-- A LasData aggregate holding one all-zero point whose return_number array was
mutated to 1 after reading, without a repack: the failing input for the write path. -/
def exampleMutatedLas : LasDataM :=
  { header := ⟨0, 15, 0, 0, 1⟩
    vlrs := []
    points := [⟨0, 0, 0, 0, 0, 0, 0, 0, 0⟩]
    return_number := [1]
    number_of_returns := [0]
    scan_direction_flag := [0]
    edge_of_flight_line := [0]
    classification := [0]
    synthetic := [false]
    key_point := [false]
    withheld := [false] }

/-! ## PackedPointRecord.from_stream (pylas/point/record.py) -/

/-- The payload of raise_not_enough_bytes_error: the expected byte count and the byte
count actually read. -/
structure TruncatedPointDataErr where
  expected : Nat
  got : Nat
deriving DecidableEq

/-- PackedPointRecord.from_stream: read count * itemsize bytes from the stream (a short
stream yields what it has).  When the buffer holds the requested bytes the record has
count points.  Otherwise numpy's frombuffer raises: when the buffer is not a whole
number of records, raise_not_enough_bytes_error reports expected and actual byte
counts; when it is, the count is clamped to the whole records present and a critical
warning is logged (the returned flag). -/
def fromStream (stream : List Nat) (itemsize count : Nat) :
    Except TruncatedPointDataErr (Nat × Bool) :=
  let point_data_buffer := stream.take (count * itemsize)
  if point_data_buffer.length = count * itemsize then Except.ok (count, false)
  else if point_data_buffer.length % itemsize ≠ 0 then
    Except.error ⟨count * itemsize, point_data_buffer.length⟩
  else Except.ok (point_data_buffer.length / itemsize, true)

/-! ## Sub-byte dimensions of a PackedPointRecord (formats 0-5) -/

/-- The two composed fields of point formats 0-5. -/
inductive ComposedField where
  | bitFields : ComposedField
  | rawClassification : ComposedField
deriving DecidableEq

/-- The eight sub-byte dimensions of point formats 0-5, the keys of
point_format.sub_fields. -/
inductive SubFieldName where
  | returnNumber : SubFieldName
  | numberOfReturns : SubFieldName
  | scanDirectionFlag : SubFieldName
  | edgeOfFlightLine : SubFieldName
  | classification : SubFieldName
  | synthetic : SubFieldName
  | keyPoint : SubFieldName
  | withheld : SubFieldName
deriving DecidableEq

/-- The composed parent byte that stores a sub-byte dimension. -/
def SubFieldName.parent : SubFieldName → ComposedField
  | .returnNumber => .bitFields
  | .numberOfReturns => .bitFields
  | .scanDirectionFlag => .bitFields
  | .edgeOfFlightLine => .bitFields
  | .classification => .rawClassification
  | .synthetic => .rawClassification
  | .keyPoint => .rawClassification
  | .withheld => .rawClassification

/-- Low bit (inclusive) of a sub-byte dimension inside its parent byte. -/
def SubFieldName.lo : SubFieldName → Nat
  | .returnNumber => RETURN_NUMBER_LOW_BIT
  | .numberOfReturns => NUMBER_OF_RETURNS_LOW_BIT
  | .scanDirectionFlag => SCAN_DIRECTION_FLAG_LOW_BIT
  | .edgeOfFlightLine => EDGE_OF_FLIGHT_LINE_LOW_BIT
  | .classification => CLASSIFICATION_LOW_BIT
  | .synthetic => SYNTHETIC_LOW_BIT
  | .keyPoint => KEY_POINT_LOW_BIT
  | .withheld => WITHHELD_LOW_BIT

/-- High bit (exclusive) of a sub-byte dimension inside its parent byte. -/
def SubFieldName.hi : SubFieldName → Nat
  | .returnNumber => RETURN_NUMBER_HIGH_BIT
  | .numberOfReturns => NUMBER_OF_RETURNS_HIGH_BIT
  | .scanDirectionFlag => SCAN_DIRECTION_FLAG_HIGH_BIT
  | .edgeOfFlightLine => EDGE_OF_FLIGHT_LINE_HIGH_BIT
  | .classification => CLASSIFICATION_HIGH_BIT
  | .synthetic => SYNTHETIC_HIGH_BIT
  | .keyPoint => KEY_POINT_HIGH_BIT
  | .withheld => WITHHELD_HIGH_BIT

/-- Bit width of a sub-byte dimension. -/
def SubFieldName.width (d : SubFieldName) : Nat := d.hi - d.lo

/-- One point of a packed record, reduced to its two composed bytes (the whole-byte
dimensions play no role in sub-field packing). -/
structure PackedPt where
  bit_fields : Nat
  raw_classification : Nat
deriving DecidableEq

/-- Reads a composed parent byte of a point. -/
def PackedPt.readParent (pt : PackedPt) : ComposedField → Nat
  | .bitFields => pt.bit_fields
  | .rawClassification => pt.raw_classification

/-- Writes a composed parent byte of a point. -/
def PackedPt.writeParent (pt : PackedPt) : ComposedField → Nat → PackedPt
  | .bitFields, b => { pt with bit_fields := b }
  | .rawClassification, b => { pt with raw_classification := b }

/-- PackedPointRecord.__getitem__ on the name of a sub-field: unpack the dimension
from its composed parent, one freshly built value per point (packing.unpack with the
sub-field mask). -/
def recordGetSub (rec : List PackedPt) (d : SubFieldName) : List Nat :=
  rec.map fun pt => bit_transform (pt.readParent d.parent) d.lo d.hi

/-- PackedPointRecord.__setitem__ on the name of a sub-field with a broadcast scalar
value: packing.pack writes the value into the composed parent of every point, raising
OverflowError when the value exceeds the field's bit width. -/
def recordSetSub (rec : List PackedPt) (d : SubFieldName) (v : Nat) :
    Except String (List PackedPt) :=
  if 2 ^ d.width ≤ v then Except.error "Overflow"
  else Except.ok (rec.map fun pt =>
    pt.writeParent d.parent (pack_into (pt.readParent d.parent) v d.lo d.hi))

/-! ## Record auto-growth on item assignment (pylas/point/record.py) -/

/-- One point of a record reduced to a representative whole-byte dimension (intensity)
and a composed byte holding sub-fields (bit_fields); enough to state the growth
contract for both kinds of dimension. -/
structure GPoint where
  intensity : Nat
  bit_fields : Nat
deriving DecidableEq

/-- The all-zero point appended by growth (np.zeros of the record dtype). -/
def zeroGPoint : GPoint := ⟨0, 0⟩

/-- PointRecord._append_zeros_if_too_small: when the assigned value is longer than the
record, zero records are appended up to the value's length; an equal length leaves the
record untouched (size_diff zero is falsy); a shorter value would make np.zeros raise
on a negative size, modelled as none. -/
def appendZerosIfTooSmall (rec : List GPoint) (n : Nat) : Option (List GPoint) :=
  if n = rec.length then some rec
  else if rec.length < n then some (rec ++ List.replicate (n - rec.length) zeroGPoint)
  else none

/-- PackedPointRecord.__setitem__ on a whole-byte dimension (here intensity): grow if
needed, then assign the column element-wise. -/
def setWholeDim (rec : List GPoint) (vs : List Nat) : Option (List GPoint) :=
  (appendZerosIfTooSmall rec vs.length).map fun r =>
    List.zipWith (fun pt v => { pt with intensity := v }) r vs

/-- PackedPointRecord.__setitem__ on a sub-byte dimension (here return_number, bits
[0, 3) of bit_fields): grow if needed, then pack the values into the composed parent,
failing when a value exceeds the bit width. -/
def setSubDim (rec : List GPoint) (vs : List Nat) : Option (List GPoint) :=
  (appendZerosIfTooSmall rec vs.length).bind fun r =>
    if vs.any fun v => 2 ^ (RETURN_NUMBER_HIGH_BIT - RETURN_NUMBER_LOW_BIT) ≤ v then none
    else some (List.zipWith (fun pt v =>
      { pt with bit_fields := pack_into pt.bit_fields v RETURN_NUMBER_LOW_BIT RETURN_NUMBER_HIGH_BIT }) r vs)

/-! ## The scaled coordinate view (pylas/point/record.py, pylas/lasdatas/base.py) -/

/-- record.scale_dimension: scaled value of a raw coordinate. -/
def scale_dimension (array_dim scale offset : ℚ) : ℚ := array_dim * scale + offset

/-- Rounding to the nearest integer with ties to even, the rule of np.round. -/
def roundHalfEven (q : ℚ) : ℤ :=
  let f := ⌊q⌋
  let r := q - f
  if r < 1 / 2 then f
  else if 1 / 2 < r then f + 1
  else if f % 2 = 0 then f else f + 1

/-- record.unscale_dimension: np.round((array_dim - offset) / scale), returned as the
double it produces. -/
def unscale_dimension (array_dim scale offset : ℚ) : ℚ :=
  (roundHalfEven ((array_dim - offset) / scale) : ℚ)

/-- Modelled from the spec: the ScaledArrayView of pylas/point/dims.py (absent from
src/) holds a reference to the raw integer column plus scale and offset. -/
structure ScaledArrayView where
  raw : List ℤ
  scale : ℚ
  offset : ℚ

/-- Modelled from the spec: element read of a ScaledArrayView yields
raw[i] * scale + offset as a double. -/
def ScaledArrayView.get (v : ScaledArrayView) (i : Nat) : ℚ :=
  scale_dimension ((v.raw.getD i 0 : ℤ) : ℚ) v.scale v.offset

/-- Modelled from the spec: element write of a ScaledArrayView stores
round((value - offset) / scale) into the raw integer column. -/
def ScaledArrayView.set (v : ScaledArrayView) (i : Nat) (value : ℚ) : ScaledArrayView :=
  { v with raw := v.raw.set i (roundHalfEven ((value - v.offset) / v.scale)) }

/-! ## The streaming writer (pylas/laswriter.py) -/

/-- File version as the (major, minor) pair the header carries; the source compares
versions with the string order, which on the single-digit LAS versions coincides with
the lexicographic order on the pair. -/
def versionLt (a b : Nat × Nat) : Prop := a.1 < b.1 ∨ (a.1 = b.1 ∧ a.2 < b.2)

instance (a b : Nat × Nat) : Decidable (versionLt a b) := by
  unfold versionLt; infer_instance

/-- Modelled from the spec: the number of slots of number_of_points_by_return is 5
before version 1.4 and 15 from 1.4 on (the header classes are absent from src/). -/
def returnSlots (version : Nat × Nat) : Nat := if versionLt version (1, 4) then 5 else 15

/-- Modelled from the spec: dims.raise_if_version_not_compatible_with_fmt (absent from
src/): formats 6-10 require version 1.4, formats with RGB require at least 1.2. -/
def versionCompatibleWithFmt (fmt : Nat) (version : Nat × Nat) : Bool :=
  if 6 ≤ fmt then ¬ versionLt version (1, 4)
  else if fmt = 2 ∨ fmt = 3 ∨ fmt = 5 then ¬ versionLt version (1, 2)
  else ¬ versionLt version (1, 0)

/-- The header fields the writer maintains.  Scales and offsets are doubles, modelled
exactly over Rat; the min/max accumulators start at the widest double sentinels,
modelled as none (any scaled coordinate replaces the sentinel on first comparison,
exactly as max/min against the extreme doubles would). -/
structure WHeader where
  version : Nat × Nat
  header_size : Nat
  point_format_id : Nat
  point_size : Nat
  point_count : Nat
  number_of_vlr : Nat
  offset_to_point_data : Nat
  x_scale : ℚ
  y_scale : ℚ
  z_scale : ℚ
  x_offset : ℚ
  y_offset : ℚ
  z_offset : ℚ
  x_max : Option ℚ
  y_max : Option ℚ
  z_max : Option ℚ
  x_min : Option ℚ
  y_min : Option ℚ
  z_min : Option ℚ
  number_of_points_by_return : List Nat
  number_of_evlr : Nat
  start_of_first_evlr : Nat
deriving DecidableEq

/-- Modelled from the spec: header.partial_reset zeroes the statistics that the writer
recomputes (point count and the per-return table, sized by the version). -/
def WHeader.partial_reset (h : WHeader) : WHeader :=
  { h with
    point_count := 0
    number_of_points_by_return := List.replicate (returnSlots h.version) 0
    x_max := none, y_max := none, z_max := none
    x_min := none, y_min := none, z_min := none }

/-- One point as the writer statistics see it: the raw integer coordinates and the
unpacked return_number sub-field. -/
structure WPoint where
  X : ℤ
  Y : ℤ
  Z : ℤ
  return_number : Nat
deriving DecidableEq

/-- A chunk handed to LasWriter.write: its point format (an id standing for the whole
PointFormat value), the per-point byte size of that format, and the points. -/
structure Chunk where
  fmt : Nat
  point_size : Nat
  pts : List WPoint
deriving DecidableEq

/-- What the writer appends to the destination stream, with its byte size; positions
on the destination are byte offsets (dest.tell() is the total size written). -/
inductive DestItem where
  | headerBlock (size : Nat) : DestItem
  | vlrBlock (count : Nat) (payloadBytes : Nat) : DestItem
  | pointBlock (count : Nat) (pointSize : Nat) : DestItem
  | evlrBlock (count : Nat) (payloadBytes : Nat) : DestItem
deriving DecidableEq

/-- Byte size of a destination block (VLR headers are 54 bytes, EVLR headers 60). -/
def DestItem.size : DestItem → Nat
  | .headerBlock s => s
  | .vlrBlock n p => 54 * n + p
  | .pointBlock n s => n * s
  | .evlrBlock n p => 60 * n + p

/-- dest.tell(): the byte position after everything written so far. -/
def destTell (dest : List DestItem) : Nat := (dest.map DestItem.size).sum

/-- The state of the uncompressed point writer back-end: whether done() has been
called (UncompressedPointWriter.done itself is a no-op on the stream). -/
structure PointWriterState where
  finalized : Bool
deriving DecidableEq

/-- Errors raised by the writer (all PylasError in the source; the variants are the
distinct messages). -/
inductive WriterErr where
  | writeAfterDone : WriterErr
  | incompatibleVersion : WriterErr
  | incompatibleFormat : WriterErr
  | evlrNotSupported : WriterErr
  | noPointWriter : WriterErr
deriving DecidableEq

/-- The LasWriter state: the copied header being folded, the VLR list (abstracted to
its payload byte sizes), the destination, the opened point format, the back-end state
and the done flag. -/
structure WState where
  header : WHeader
  vlrPayloads : List Nat
  dest : List DestItem
  point_format : Option Nat
  point_writer : Option PointWriterState
  done : Bool
deriving DecidableEq

/-- LasWriter.__init__: copy the header, partial_reset it, set the min/max
accumulators to the double sentinels (none here), start with no point format, no
back-end and done = False. -/
def LasWriter.new (header : WHeader) (vlrPayloads : List Nat) : WState :=
  { header := header.partial_reset
    vlrPayloads := vlrPayloads
    dest := []
    point_format := none
    point_writer := none
    done := false }

/-- Per-chunk raw maximum of one integer column (numpy column.max() over the chunk). -/
def chunkRawMax (f : WPoint → ℤ) : List WPoint → ℤ
  | [] => 0
  | p :: rest => rest.foldl (fun a q => max a (f q)) (f p)

/-- Per-chunk raw minimum of one integer column. -/
def chunkRawMin (f : WPoint → ℤ) : List WPoint → ℤ
  | [] => 0
  | p :: rest => rest.foldl (fun a q => min a (f q)) (f p)

/-- Folds one value into a running maximum that starts at the widest-double sentinel
(none); max against the sentinel always takes the new value. -/
def omax (acc : Option ℚ) (v : ℚ) : Option ℚ :=
  some (match acc with
    | none => v
    | some m => max m v)

/-- Folds one value into a running minimum that starts at the sentinel. -/
def omin (acc : Option ℚ) (v : ℚ) : Option ℚ :=
  some (match acc with
    | none => v
    | some m => min m v)

/-- The per-return histogram fold of LasWriter._update_header.  The source iterates
the sorted unique return_number values with their counts, breaks at the first value i
with i at or beyond the table length, and adds each count into slot i - 1 (a Python
index, so i = 0 wraps to the last slot).  Processing the points one by one, skipping
every value at or beyond the table length and bumping slot (i + len - 1) % len, adds
the same counts to the same slots. -/
def foldReturns (tbl : List Nat) (pts : List WPoint) : List Nat :=
  pts.foldl
    (fun t p =>
      if p.return_number < t.length then
        t.set ((p.return_number + t.length - 1) % t.length)
          (t.getD ((p.return_number + t.length - 1) % t.length) 0 + 1)
      else t)
    tbl

/-- LasWriter._update_header: fold the chunk's scaled bounding box (numpy takes the
raw column extremum first, then scales it), the per-return histogram and the point
count into the header.  The writer never calls this with an empty chunk. -/
def updateHeader (h : WHeader) (pts : List WPoint) : WHeader :=
  match pts with
  | [] => h
  | _ :: _ =>
    { h with
      x_max := omax h.x_max ((chunkRawMax (fun p => p.X) pts : ℚ) * h.x_scale + h.x_offset)
      y_max := omax h.y_max ((chunkRawMax (fun p => p.Y) pts : ℚ) * h.y_scale + h.y_offset)
      z_max := omax h.z_max ((chunkRawMax (fun p => p.Z) pts : ℚ) * h.z_scale + h.z_offset)
      x_min := omin h.x_min ((chunkRawMin (fun p => p.X) pts : ℚ) * h.x_scale + h.x_offset)
      y_min := omin h.y_min ((chunkRawMin (fun p => p.Y) pts : ℚ) * h.y_scale + h.y_offset)
      z_min := omin h.z_min ((chunkRawMin (fun p => p.Z) pts : ℚ) * h.z_scale + h.z_offset)
      number_of_points_by_return := foldReturns h.number_of_points_by_return pts
      point_count := h.point_count + pts.length }

/-- PointWriter.write_initial_header_and_vlrs: set number_of_vlr and
offset_to_point_data on the header, then write the header and the VLRs to the
destination. -/
def writeInitialHeaderAndVlrs (h : WHeader) (vlrPayloads : List Nat) :
    WHeader × List DestItem :=
  let h := { h with
    number_of_vlr := vlrPayloads.length
    offset_to_point_data := h.header_size + (54 * vlrPayloads.length + vlrPayloads.sum) }
  (h, [DestItem.headerBlock h.header_size, DestItem.vlrBlock vlrPayloads.length vlrPayloads.sum])

/-- LasWriter.write on the uncompressed path: empty chunks return at once; writing
after done raises; the first non-empty chunk checks version compatibility, fixes the
point format, creates the back-end and writes the initial header and VLRs; later
chunks must match the opened format; then the header statistics are folded and the
point bytes forwarded.  The error, when any, is raised before any state mutation, so
the returned state is unchanged in every error case. -/
def LasWriter.write (s : WState) (c : Chunk) : Option WriterErr × WState :=
  if c.pts.isEmpty then (none, s)
  else if s.done then (some .writeAfterDone, s)
  else if s.header.point_count = 0 then
    if versionCompatibleWithFmt c.fmt s.header.version then
      let h0 := { s.header with point_format_id := c.fmt, point_size := c.point_size }
      let hw := writeInitialHeaderAndVlrs h0 s.vlrPayloads
      let h1 := updateHeader hw.1 c.pts
      (none, { s with
        header := h1
        point_format := some c.fmt
        point_writer := some ⟨false⟩
        dest := s.dest ++ hw.2 ++ [DestItem.pointBlock c.pts.length c.point_size] })
    else (some .incompatibleVersion, s)
  else if s.point_format ≠ some c.fmt then (some .incompatibleFormat, s)
  else
    (none, { s with
      header := updateHeader s.header c.pts
      dest := s.dest ++ [DestItem.pointBlock c.pts.length c.point_size] })

/-- LasWriter.write_evlrs: versions below 1.4 raise EvlrNotSupported before touching
anything; with a non-empty list the back-end is finalized (point_writer.done(), an
attribute error when no chunk was ever written), done is set, the header records the
count and the current destination position, and the EVLRs are written there. -/
def LasWriter.write_evlrs (s : WState) (evlrPayloads : List Nat) :
    Option WriterErr × WState :=
  if versionLt s.header.version (1, 4) then (some .evlrNotSupported, s)
  else if 0 < evlrPayloads.length then
    match s.point_writer with
    | none => (some .noPointWriter, s)
    | some _ =>
      let h := { s.header with
        number_of_evlr := evlrPayloads.length
        start_of_first_evlr := destTell s.dest }
      (none, { s with
        header := h
        point_writer := some ⟨true⟩
        done := true
        dest := s.dest ++ [DestItem.evlrBlock evlrPayloads.length evlrPayloads.sum] })
  else (none, s)

/-- LasWriter.close: finalize the back-end when not already done, then rewrite the
header in place at offset 0 (same size, so the destination layout is unchanged). -/
def LasWriter.close (s : WState) : WState :=
  match s.point_writer with
  | none => s
  | some pw => { s with point_writer := some (if s.done then pw else ⟨true⟩) }

/-- Writes a list of chunks in order, keeping the state of each step (errors raise in
Python, leaving the state as returned here). -/
def writeAll (s : WState) (cs : List Chunk) : WState :=
  cs.foldl (fun st c => (LasWriter.write st c).2) s

/-! ## LasBase.add_extra_dim and dimension lookup (pylas/lasdatas/base.py) -/

/-- Python str.replace(" ", "_") on a one-character pattern: every space becomes an
underscore (strings modelled as their character lists). -/
def replaceSpaces (name : List Char) : List Char :=
  name.map fun ch => if ch = ' ' then '_' else ch

/-- A LasBase reduced to the named dimension columns of its point record (values
abstracted to zero-initialized integer columns, names to character lists). -/
structure LasBaseM where
  columns : List (List Char × List Int)
  point_count : Nat
deriving DecidableEq

/-- LasBase.add_extra_dim: the name has its spaces replaced by underscores, then a
zero-initialized column of that name is appended to the point record (and the
matching descriptor to the ExtraBytes VLR, carrying the same replaced name). -/
def LasBaseM.add_extra_dim (las : LasBaseM) (name : List Char) : LasBaseM :=
  let name := replaceSpaces name
  { las with columns := las.columns ++ [(name, List.replicate las.point_count 0)] }

/-- LasBase.__getitem__: dimension lookup by exact name in the point record; an
unknown name raises. -/
def LasBaseM.getDim (las : LasBaseM) (item : List Char) : Option (List Int) :=
  (las.columns.find? fun c => c.1 == item).map fun c => c.2

/-! ## Helper functions for the writer statistics -/

/-- The maximum of a list of scaled coordinates, none for the empty list (matching the
sentinel the accumulators start from). -/
def optListMax : List ℚ → Option ℚ
  | [] => none
  | x :: xs => some (xs.foldl max x)

/-- The minimum of a list of scaled coordinates, none for the empty list. -/
def optListMin : List ℚ → Option ℚ
  | [] => none
  | x :: xs => some (xs.foldl min x)

/-- The statistics relation between the writer's header and the points written so far:
version, scales and offsets still those of the opened header, the point count, the
bounding box accumulators holding exactly the extrema of the scaled coordinates on
every axis whose scale is nonnegative (the fold scales the raw extremum, so only a
nonnegative scale keeps it the scaled extremum), and the per-return table of the
right size summing to the number of points whose return_number is below the table
size.  The point count and per-return components do not depend on any scale sign. -/
def HeaderStats (h0 : WHeader) (h : WHeader) (P : List WPoint) : Prop :=
  h.version = h0.version ∧
  h.x_scale = h0.x_scale ∧ h.y_scale = h0.y_scale ∧ h.z_scale = h0.z_scale ∧
  h.x_offset = h0.x_offset ∧ h.y_offset = h0.y_offset ∧ h.z_offset = h0.z_offset ∧
  h.point_count = P.length ∧
  (0 ≤ h0.x_scale →
    h.x_max = optListMax (P.map fun p => (p.X : ℚ) * h0.x_scale + h0.x_offset)) ∧
  (0 ≤ h0.y_scale →
    h.y_max = optListMax (P.map fun p => (p.Y : ℚ) * h0.y_scale + h0.y_offset)) ∧
  (0 ≤ h0.z_scale →
    h.z_max = optListMax (P.map fun p => (p.Z : ℚ) * h0.z_scale + h0.z_offset)) ∧
  (0 ≤ h0.x_scale →
    h.x_min = optListMin (P.map fun p => (p.X : ℚ) * h0.x_scale + h0.x_offset)) ∧
  (0 ≤ h0.y_scale →
    h.y_min = optListMin (P.map fun p => (p.Y : ℚ) * h0.y_scale + h0.y_offset)) ∧
  (0 ≤ h0.z_scale →
    h.z_min = optListMin (P.map fun p => (p.Z : ℚ) * h0.z_scale + h0.z_offset)) ∧
  h.number_of_points_by_return.length = returnSlots h0.version ∧
  h.number_of_points_by_return.sum
    = (P.filter fun p => p.return_number < returnSlots h0.version).length

/-- The writer invariant carried through a sequence of writes: the header statistics
relation, the done flag still down, and the opened point format recorded once the
first point went through. -/
def WriterInv (h0 : WHeader) (f : Nat) (s : WState) (P : List WPoint) : Prop :=
  s.done = false ∧
  HeaderStats h0 s.header P ∧
  (s.header.point_count ≠ 0 → s.point_format = some f)

/-- The header of the C3 counterexample run: version 1.2 (a 5-slot per-return table)
and a negative x scale. -/
def cexHeader : WHeader :=
  { version := (1, 2)
    header_size := 227
    point_format_id := 0
    point_size := 20
    point_count := 0
    number_of_vlr := 0
    offset_to_point_data := 0
    x_scale := -1, y_scale := 1, z_scale := 1
    x_offset := 0, y_offset := 0, z_offset := 0
    x_max := none, y_max := none, z_max := none
    x_min := none, y_min := none, z_min := none
    number_of_points_by_return := []
    number_of_evlr := 0
    start_of_first_evlr := 0 }

/-- The chunk of the C3 counterexample run: two points with distinct raw X and
return_number 5 (the first return value the 5-slot table drops). -/
def cexChunk : Chunk :=
  { fmt := 0
    point_size := 20
    pts := [⟨0, 0, 0, 5⟩, ⟨1, 0, 0, 5⟩] }

/-- A concrete well-formed one-point, one-VLR aggregate for exercising the legacy
round trip. -/
def exampleRoundtripLas : LasDataM :=
  { header := ⟨0, 15, 999, 7, 1⟩
    vlrs := [⟨List.replicate 16 3, 42, List.replicate 32 0, [9, 9, 9]⟩]
    points := [⟨1, 2, 3, 4, 5, 6, 7, 8, 9⟩]
    return_number := [5]
    number_of_returns := [0]
    scan_direction_flag := [0]
    edge_of_flight_line := [0]
    classification := [6]
    synthetic := [false]
    key_point := [false]
    withheld := [false] }

/-- A concrete version-1.4 header for exercising the writer contracts. -/
def exampleHeader14 : WHeader :=
  { version := (1, 4)
    header_size := 375
    point_format_id := 6
    point_size := 30
    point_count := 3
    number_of_vlr := 0
    offset_to_point_data := 375
    x_scale := 1, y_scale := 1, z_scale := 1
    x_offset := 0, y_offset := 0, z_offset := 0
    x_max := some 1, y_max := some 1, z_max := some 1
    x_min := some 0, y_min := some 0, z_min := some 0
    number_of_points_by_return := List.replicate 15 0
    number_of_evlr := 0
    start_of_first_evlr := 0 }

/-- Two concrete format-6 chunks for exercising the writer statistics contract. -/
def exampleChunks : List Chunk :=
  [⟨6, 30, [⟨0, 0, 0, 1⟩]⟩, ⟨6, 30, [⟨5, 2, 3, 2⟩]⟩]

/-- A concrete writer state that has already written one non-empty chunk of format 6. -/
def exampleWriterOpen : WState :=
  { header := exampleHeader14
    vlrPayloads := []
    dest := [DestItem.headerBlock 375, DestItem.vlrBlock 0 0, DestItem.pointBlock 3 30]
    point_format := some 6
    point_writer := some ⟨false⟩
    done := false }

/-! ## Bit-packing arithmetic lemmas -/

theorem pow_split (lo hi : Nat) (h : lo ≤ hi) : (2 : Nat) ^ hi = 2 ^ lo * 2 ^ (hi - lo) := by
  rw [← pow_add]
  congr 1
  omega

/-- Unpacking a just-packed sub-field returns the packed value. -/
theorem unpack_pack_same (b v lo hi : Nat) (hlh : lo ≤ hi) (hv : v < 2 ^ (hi - lo)) :
    bit_transform (pack_into b v lo hi) lo hi = v := by
  unfold bit_transform pack_into
  rw [Nat.mod_eq_of_lt hv]
  have h2 : (2 : Nat) ^ hi = 2 ^ lo * 2 ^ (hi - lo) := pow_split lo hi hlh
  have hP : b % 2 ^ lo + v * 2 ^ lo + 2 ^ hi * (b / 2 ^ hi)
      = b % 2 ^ lo + (v + 2 ^ (hi - lo) * (b / 2 ^ hi)) * 2 ^ lo := by
    rw [h2]; ring
  rw [hP, Nat.add_mul_div_right _ _ (Nat.pos_pow_of_pos lo (by norm_num)),
    Nat.div_eq_of_lt (Nat.mod_lt b (Nat.pos_pow_of_pos lo (by norm_num))),
    Nat.zero_add, Nat.add_mul_mod_self_left]
  exact Nat.mod_eq_of_lt hv

/-- Packing a sub-field leaves every sub-field living strictly below it untouched. -/
theorem unpack_pack_below (b v lo hi lo' hi' : Nat) (hlh : lo' ≤ hi') (hle : hi' ≤ lo)
    (hlo : lo ≤ hi) :
    bit_transform (pack_into b v lo hi) lo' hi' = bit_transform b lo' hi' := by
  have hmod : pack_into b v lo hi % 2 ^ hi' = b % 2 ^ hi' := by
    obtain ⟨k1, hk1⟩ : (2 : Nat) ^ hi' ∣ 2 ^ lo := pow_dvd_pow 2 hle
    obtain ⟨k2, hk2⟩ : (2 : Nat) ^ hi' ∣ 2 ^ hi := pow_dvd_pow 2 (le_trans hle hlo)
    have hexp : pack_into b v lo hi
        = b % 2 ^ lo + 2 ^ hi' * (v % 2 ^ (hi - lo) * k1 + k2 * (b / 2 ^ hi)) := by
      unfold pack_into
      rw [hk1, hk2]
      ring
    rw [hexp, Nat.add_mul_mod_self_left, hk1]
    exact Nat.mod_mod_of_dvd b ⟨k1, rfl⟩
  unfold bit_transform
  rw [← Nat.mod_mul_right_div_self (pack_into b v lo hi) (2 ^ lo') (2 ^ (hi' - lo')),
    ← Nat.mod_mul_right_div_self b (2 ^ lo') (2 ^ (hi' - lo')),
    ← pow_split lo' hi' hlh, hmod]

/-- Packing a sub-field leaves every sub-field living strictly above it untouched. -/
theorem unpack_pack_above (b v lo hi lo' hi' : Nat) (hlo : lo ≤ hi) (hle : hi ≤ lo') :
    bit_transform (pack_into b v lo hi) lo' hi' = bit_transform b lo' hi' := by
  have hpos : ∀ w : Nat, 0 < (2 : Nat) ^ w := fun w => Nat.pos_pow_of_pos w (by norm_num)
  have hr : b % 2 ^ lo + v % 2 ^ (hi - lo) * 2 ^ lo < 2 ^ hi := by
    have h1 : b % 2 ^ lo < 2 ^ lo := Nat.mod_lt b (hpos lo)
    have h2 : v % 2 ^ (hi - lo) + 1 ≤ 2 ^ (hi - lo) := Nat.succ_le_of_lt (Nat.mod_lt v (hpos (hi - lo)))
    have h3 : (v % 2 ^ (hi - lo) + 1) * 2 ^ lo ≤ 2 ^ (hi - lo) * 2 ^ lo :=
      Nat.mul_le_mul_right (2 ^ lo) h2
    have h4 : (2 : Nat) ^ (hi - lo) * 2 ^ lo = 2 ^ hi := by
      rw [mul_comm, ← pow_split lo hi hlo]
    have h5 : v % 2 ^ (hi - lo) * 2 ^ lo + 2 ^ lo ≤ 2 ^ hi := by
      rw [← h4]
      calc v % 2 ^ (hi - lo) * 2 ^ lo + 2 ^ lo = (v % 2 ^ (hi - lo) + 1) * 2 ^ lo := by ring
        _ ≤ 2 ^ (hi - lo) * 2 ^ lo := h3
    omega
  have hdiv : pack_into b v lo hi / 2 ^ hi = b / 2 ^ hi := by
    unfold pack_into
    rw [Nat.add_mul_div_left _ _ (hpos hi), Nat.div_eq_of_lt hr, Nat.zero_add]
  unfold bit_transform
  have h2 : (2 : Nat) ^ lo' = 2 ^ hi * 2 ^ (lo' - hi) := pow_split hi lo' hle
  rw [h2, ← Nat.div_div_eq_div_mul, hdiv, Nat.div_div_eq_div_mul, ← h2]

/-! ## Sub-field record lemmas and the C5 contract -/

theorem readParent_writeParent (pt : PackedPt) (c : ComposedField) (b : Nat) :
    (pt.writeParent c b).readParent c = b := by
  cases c <;> rfl

theorem readParent_writeParent_other (pt : PackedPt) (c c' : ComposedField) (b : Nat)
    (h : c' ≠ c) : (pt.writeParent c b).readParent c' = pt.readParent c' := by
  cases c <;> cases c' <;> first | rfl | exact absurd rfl h

theorem subfield_lo_le_hi (d : SubFieldName) : d.lo ≤ d.hi := by
  cases d <;> decide

theorem subfield_disjoint (d d' : SubFieldName) :
    d'.parent = d.parent → d' ≠ d → d'.hi ≤ d.lo ∨ d.hi ≤ d'.lo := by
  cases d <;> cases d' <;> decide

theorem map_eq_replicate {α : Type} (v : Nat) (l : List α) :
    l.map (fun _ => v) = List.replicate l.length v := by
  induction l with
  | nil => rfl
  | cons x xs ih => simp [ih, List.replicate_succ]

/-- C5: for every sub-byte dimension d of a packed point record and every value v
within d's bit width, assigning v through item-set packs it into the composed parent of
every point: reading d back yields v everywhere, every other sub-field d2 is unchanged,
and a value at or beyond the bit width raises Overflow (the read itself is a pure
function of the buffer: the freshly unpacked array never aliases it). -/
theorem subfield_get_set_contract (rec : List PackedPt) (d d2 : SubFieldName) (v : Nat) :
    (v < 2 ^ d.width →
      ∃ rec2, recordSetSub rec d v = Except.ok rec2 ∧
        recordGetSub rec2 d = List.replicate rec.length v ∧
        (d2 ≠ d → recordGetSub rec2 d2 = recordGetSub rec d2)) ∧
    (2 ^ d.width ≤ v → recordSetSub rec d v = Except.error "Overflow") := by
  constructor
  · intro hv
    have hnot : ¬ 2 ^ d.width ≤ v := by omega
    refine ⟨rec.map fun pt =>
      pt.writeParent d.parent (pack_into (pt.readParent d.parent) v d.lo d.hi),
      by simp [recordSetSub, hnot], ?_, ?_⟩
    · unfold recordGetSub
      rw [List.map_map]
      have hfun : (fun pt : PackedPt => bit_transform
          ((pt.writeParent d.parent (pack_into (pt.readParent d.parent) v d.lo d.hi)).readParent
            d.parent) d.lo d.hi) = fun _ : PackedPt => v := by
        funext pt
        rw [readParent_writeParent]
        exact unpack_pack_same _ v d.lo d.hi (subfield_lo_le_hi d) hv
      rw [show ((fun pt : PackedPt => bit_transform (pt.readParent d.parent) d.lo d.hi) ∘
          fun pt : PackedPt =>
            pt.writeParent d.parent (pack_into (pt.readParent d.parent) v d.lo d.hi)) =
          fun _ : PackedPt => v from hfun]
      exact map_eq_replicate v rec
    · intro hne
      unfold recordGetSub
      rw [List.map_map]
      have hfun : ∀ pt : PackedPt, bit_transform
          ((pt.writeParent d.parent (pack_into (pt.readParent d.parent) v d.lo d.hi)).readParent
            d2.parent) d2.lo d2.hi
          = bit_transform (pt.readParent d2.parent) d2.lo d2.hi := by
        intro pt
        by_cases hpar : d2.parent = d.parent
        · rw [hpar, readParent_writeParent]
          rcases subfield_disjoint d d2 hpar hne with hb | ha
          · exact unpack_pack_below _ v d.lo d.hi d2.lo d2.hi (subfield_lo_le_hi d2) hb
              (subfield_lo_le_hi d)
          · exact unpack_pack_above _ v d.lo d.hi d2.lo d2.hi (subfield_lo_le_hi d) ha
        · rw [readParent_writeParent_other _ _ _ _ hpar]
      exact congrArg (fun f => List.map f rec) (funext hfun)
  · intro hge
    simp [recordSetSub, hge]

/-- C5 witness: packing return_number = 3 into a two-point record leaves
number_of_returns untouched and reads back as 3 everywhere, and 8 overflows. -/
theorem subfield_get_set_contract_witness :
    (3 < 2 ^ SubFieldName.returnNumber.width ∧
      ∃ rec2, recordSetSub [⟨0b10101010, 7⟩, ⟨0, 7⟩] SubFieldName.returnNumber 3 = Except.ok rec2 ∧
        recordGetSub rec2 SubFieldName.returnNumber = List.replicate 2 3 ∧
        (SubFieldName.numberOfReturns ≠ SubFieldName.returnNumber →
          recordGetSub rec2 SubFieldName.numberOfReturns
            = recordGetSub [⟨0b10101010, 7⟩, ⟨0, 7⟩] SubFieldName.numberOfReturns)) ∧
    (2 ^ SubFieldName.returnNumber.width ≤ 8 ∧
      recordSetSub [⟨0b10101010, 7⟩, ⟨0, 7⟩] SubFieldName.returnNumber 8
        = Except.error "Overflow") := by
  constructor
  · exact ⟨by decide,
      (subfield_get_set_contract [⟨0b10101010, 7⟩, ⟨0, 7⟩] SubFieldName.returnNumber
        SubFieldName.numberOfReturns 3).1 (by decide)⟩
  · exact ⟨by decide,
      (subfield_get_set_contract [⟨0b10101010, 7⟩, ⟨0, 7⟩] SubFieldName.returnNumber
        SubFieldName.numberOfReturns 8).2 (by decide)⟩

/-! ## C4: PackedPointRecord.from_stream -/

/-- C4 counterexample: a stream holding one whole 20-byte record when two were
requested is clamped to one record with a warning, although the caller never opted
into recovery (from_stream has no opt-in parameter at all); the claim says this case
fails with TruncatedPointData. -/
theorem from_stream_clamps_without_opt_in :
    fromStream (List.replicate 20 0) 20 2 = Except.ok (1, true) := by rfl

/-- C4 amended: from_stream consumes exactly n * stride bytes when the stream has
them and then yields n points with no warning; on a short stream it fails with
TruncatedPointData carrying the expected and actual byte counts exactly when the
available bytes are not a whole number of records, and otherwise unconditionally
clamps n to the whole records present, surfacing a warning. -/
theorem from_stream_truncation_contract (stream : List Nat) (itemsize count : Nat) :
    (count * itemsize ≤ stream.length →
      fromStream stream itemsize count = Except.ok (count, false)) ∧
    (stream.length < count * itemsize →
      (stream.length % itemsize ≠ 0 →
        fromStream stream itemsize count = Except.error ⟨count * itemsize, stream.length⟩) ∧
      (stream.length % itemsize = 0 →
        fromStream stream itemsize count = Except.ok (stream.length / itemsize, true))) := by
  constructor
  · intro h
    have hlen : (stream.take (count * itemsize)).length = count * itemsize := by
      rw [List.length_take]
      omega
    simp only [fromStream]
    rw [if_pos hlen]
  · intro h
    have hlen : (stream.take (count * itemsize)).length = stream.length := by
      rw [List.length_take]
      omega
    have hne : ¬ (stream.take (count * itemsize)).length = count * itemsize := by
      omega
    constructor
    · intro hmod
      simp only [fromStream]
      rw [if_neg hne, if_pos (by rw [hlen]; exact hmod), hlen]
    · intro hmod
      simp only [fromStream]
      rw [if_neg hne, if_neg (by rw [hlen]; simpa using hmod), hlen]

/-- C4 witness: a full stream yields the requested count with no warning; a stream cut
inside a record fails with the expected and actual byte counts. -/
theorem from_stream_truncation_contract_witness :
    fromStream (List.replicate 40 0) 20 2 = Except.ok (2, false) ∧
    fromStream (List.replicate 30 0) 20 2 = Except.error ⟨40, 30⟩ :=
  ⟨(from_stream_truncation_contract (List.replicate 40 0) 20 2).1 (by simp),
    ((from_stream_truncation_contract (List.replicate 30 0) 20 2).2 (by simp)).1 (by simp)⟩

/-! ## C8: add_extra_dim with spaces in the name -/

/-- C8: add_extra_dim("Name With Spaces") stores the column under the
space-to-underscore replaced name, so the indexing by the exact original name that the
repository's own test (test_extra_bytes_with_spaces_in_name) performs finds no such
dimension and raises, while the underscored name finds the zero-initialized column. -/
theorem add_extra_dim_space_name_not_found :
    (LasBaseM.add_extra_dim ⟨[], 5⟩ "Name With Spaces".toList).getDim "Name With Spaces".toList
      = none ∧
    (LasBaseM.add_extra_dim ⟨[], 5⟩ "Name With Spaces".toList).getDim "Name_With_Spaces".toList
      = some (List.replicate 5 0) := by decide

/-! ## C9: the scaled coordinate view -/

theorem roundHalfEven_intCast (j : ℤ) : roundHalfEven (j : ℚ) = j := by
  simp only [roundHalfEven, Int.floor_intCast, sub_self]
  norm_num

/-- C9: the scaled view reads raw[i] * scale + offset, writing back the value just
read stores the original raw integer, and for every integer j the unscale of the
scaled value is j again (np.round of an exact integer, whatever the tie rule). -/
theorem scaled_view_contract (raw : List ℤ) (s o : ℚ) (i : Nat) (hs : s ≠ 0) :
    (ScaledArrayView.mk raw s o).get i = ((raw.getD i 0 : ℤ) : ℚ) * s + o ∧
    ((ScaledArrayView.mk raw s o).set i ((ScaledArrayView.mk raw s o).get i)).raw
      = raw.set i (raw.getD i 0) ∧
    ∀ j : ℤ, unscale_dimension (scale_dimension (j : ℚ) s o) s o = ((j : ℤ) : ℚ) := by
  have key : ∀ j : ℤ, ((j : ℚ) * s + o - o) / s = (j : ℚ) := by
    intro j
    rw [add_sub_cancel_right]
    exact mul_div_cancel_right₀ _ hs
  refine ⟨rfl, ?_, ?_⟩
  · simp only [ScaledArrayView.set, ScaledArrayView.get, scale_dimension]
    rw [key, roundHalfEven_intCast]
  · intro j
    simp only [unscale_dimension, scale_dimension]
    rw [key, roundHalfEven_intCast]

/-- C9 witness: scale 1/100 and offset 10 on the raw integer 200 scale to 12 and
unscale back to 200. -/
theorem scaled_view_contract_witness :
    unscale_dimension (scale_dimension ((200 : ℤ) : ℚ) (1 / 100) 10) (1 / 100) 10
      = ((200 : ℤ) : ℚ) :=
  (scaled_view_contract [] (1 / 100) 10 0 (by norm_num)).2.2 200

/-! ## C10: record auto-growth on item assignment -/

theorem mem_zipWith_replicate {α β γ : Type} (f : α → β → γ) (z : α) :
    ∀ (n : Nat) (l : List β) (x : γ), x ∈ List.zipWith f (List.replicate n z) l →
      ∃ v, x = f z v := by
  intro n
  induction n with
  | zero => intro l x hx; simp at hx
  | succ k ih =>
    intro l x hx
    cases l with
    | nil => simp at hx
    | cons b bs =>
      rw [List.replicate_succ] at hx
      simp only [List.zipWith, List.mem_cons] at hx
      rcases hx with rfl | hx
      · exact ⟨b, rfl⟩
      · exact ih bs x hx

/-- C10: assigning a dimension from an array longer than the record grows the record
to the array's length first, the appended records being zero-filled in every other
dimension, and assigning an equal-length array keeps the length; this holds for a
whole-byte dimension and a sub-byte dimension alike. -/
theorem setitem_autogrowth (rec : List GPoint) (vs : List Nat)
    (hlen : rec.length ≤ vs.length)
    (hv : ∀ v ∈ vs, v < 2 ^ (RETURN_NUMBER_HIGH_BIT - RETURN_NUMBER_LOW_BIT)) :
    (∃ r1, setWholeDim rec vs = some r1 ∧ r1.length = vs.length ∧
      ∀ pt ∈ r1.drop rec.length, pt.bit_fields = 0) ∧
    (∃ r2, setSubDim rec vs = some r2 ∧ r2.length = vs.length ∧
      ∀ pt ∈ r2.drop rec.length, pt.intensity = 0) := by
  have hany : vs.any (fun v =>
      2 ^ (RETURN_NUMBER_HIGH_BIT - RETURN_NUMBER_LOW_BIT) ≤ v) = false := by
    rw [List.any_eq_false]
    intro v hvm
    simpa using Nat.not_le.mpr (hv v hvm)
  by_cases heq : vs.length = rec.length
  · have hgrow : appendZerosIfTooSmall rec vs.length = some rec := by
      simp [appendZerosIfTooSmall, heq]
    have hw : setWholeDim rec vs
        = some (List.zipWith (fun pt v => { pt with intensity := v }) rec vs) := by
      simp [setWholeDim, hgrow]
    have hs : setSubDim rec vs
        = some (List.zipWith (fun pt v =>
            { pt with bit_fields := (pack_into pt.bit_fields v RETURN_NUMBER_LOW_BIT
                RETURN_NUMBER_HIGH_BIT) }) rec vs) := by
      simp [setSubDim, hgrow, hany]
    have hdropnil : ∀ (l : List GPoint), l.length ≤ rec.length → l.drop rec.length = [] := by
      intro l hl
      exact List.drop_eq_nil_of_le hl
    constructor
    · refine ⟨_, hw, ?_, ?_⟩
      · simp [List.length_zipWith, heq]
      · rw [hdropnil _ (by simp [List.length_zipWith, heq])]
        intro pt hpt
        simp at hpt
    · refine ⟨_, hs, ?_, ?_⟩
      · simp [List.length_zipWith, heq]
      · rw [hdropnil _ (by simp [List.length_zipWith, heq])]
        intro pt hpt
        simp at hpt
  · have hlt : rec.length < vs.length := by omega
    have hgrow : appendZerosIfTooSmall rec vs.length
        = some (rec ++ List.replicate (vs.length - rec.length) zeroGPoint) := by
      simp [appendZerosIfTooSmall, heq, hlt]
    have hw : setWholeDim rec vs
        = some (List.zipWith (fun pt v => { pt with intensity := v })
            (rec ++ List.replicate (vs.length - rec.length) zeroGPoint) vs) := by
      simp [setWholeDim, hgrow]
    have hs : setSubDim rec vs
        = some (List.zipWith (fun pt v =>
            { pt with bit_fields := (pack_into pt.bit_fields v RETURN_NUMBER_LOW_BIT
                RETURN_NUMBER_HIGH_BIT) })
            (rec ++ List.replicate (vs.length - rec.length) zeroGPoint) vs) := by
      simp [setSubDim, hgrow, hany]
    have hlen2 : (rec ++ List.replicate (vs.length - rec.length) zeroGPoint).length
        = vs.length := by
      simp
      omega
    have hdrop : (rec ++ List.replicate (vs.length - rec.length) zeroGPoint).drop rec.length
        = List.replicate (vs.length - rec.length) zeroGPoint := by
      rw [List.drop_left]
    constructor
    · refine ⟨_, hw, ?_, ?_⟩
      · simp [List.length_zipWith, hlen2]
      · intro pt hpt
        rw [List.drop_zipWith, hdrop] at hpt
        obtain ⟨v, rfl⟩ := mem_zipWith_replicate _ zeroGPoint _ _ _ hpt
        rfl
    · refine ⟨_, hs, ?_, ?_⟩
      · simp [List.length_zipWith, hlen2]
      · intro pt hpt
        rw [List.drop_zipWith, hdrop] at hpt
        obtain ⟨v, rfl⟩ := mem_zipWith_replicate _ zeroGPoint _ _ _ hpt
        rfl

/-- C10 witness: growing a one-point record to three points through a whole-byte and
through a sub-byte assignment. -/
theorem setitem_autogrowth_witness :
    (∃ r1, setWholeDim [⟨9, 7⟩] [1, 2, 3] = some r1 ∧ r1.length = 3 ∧
      ∀ pt ∈ r1.drop 1, pt.bit_fields = 0) ∧
    (∃ r2, setSubDim [⟨9, 7⟩] [1, 2, 3] = some r2 ∧ r2.length = 3 ∧
      ∀ pt ∈ r2.drop 1, pt.intensity = 0) :=
  setitem_autogrowth [⟨9, 7⟩] [1, 2, 3] (by decide) (by decide)

/-! ## C7: writing a chunk of a different point format -/

/-- C7: once a non-empty chunk has been written (the header count is non-zero), a
further non-empty chunk whose point format differs from the opened one makes write
raise IncompatibleFormat and return with the writer state (header statistics and
destination contents) untouched: the error is raised before any fold or write. -/
theorem write_incompatible_format_unchanged (s : WState) (c : Chunk)
    (h1 : s.header.point_count ≠ 0) (h2 : s.done = false)
    (h3 : c.pts ≠ []) (h4 : s.point_format ≠ some c.fmt) :
    LasWriter.write s c = (some WriterErr.incompatibleFormat, s) := by
  unfold LasWriter.write
  rw [if_neg (by simpa using h3), if_neg (by simp [h2]), if_neg h1, if_pos h4]

/-- C7 witness: a writer opened on format 6 with three points already written rejects
a format-0 chunk unchanged. -/
theorem write_incompatible_format_unchanged_witness :
    LasWriter.write exampleWriterOpen ⟨0, 20, [⟨0, 0, 0, 1⟩]⟩
      = (some WriterErr.incompatibleFormat, exampleWriterOpen) :=
  write_incompatible_format_unchanged exampleWriterOpen ⟨0, 20, [⟨0, 0, 0, 1⟩]⟩
    (by decide) (by decide) (by decide) (by decide)

/-! ## C6: write_evlrs -/

/-- C6: write_evlrs on a pre-1.4 writer raises EvlrNotSupported with the state (and
so the destination) untouched; on a 1.4 writer with a non-empty EVLR list and a live
back-end it succeeds, finalizing the back-end, setting done, recording
start_of_first_evlr as the destination position at which the EVLR bytes then begin,
and any later non-empty write raises. -/
theorem write_evlrs_contract (s : WState) (evlrs : List Nat) :
    (versionLt s.header.version (1, 4) →
      LasWriter.write_evlrs s evlrs = (some WriterErr.evlrNotSupported, s)) ∧
    (¬ versionLt s.header.version (1, 4) → evlrs ≠ [] →
      ∀ pw, s.point_writer = some pw →
      (LasWriter.write_evlrs s evlrs).1 = none ∧
      (LasWriter.write_evlrs s evlrs).2.point_writer = some ⟨true⟩ ∧
      (LasWriter.write_evlrs s evlrs).2.done = true ∧
      (LasWriter.write_evlrs s evlrs).2.header.number_of_evlr = evlrs.length ∧
      (LasWriter.write_evlrs s evlrs).2.header.start_of_first_evlr = destTell s.dest ∧
      (LasWriter.write_evlrs s evlrs).2.dest
        = s.dest ++ [DestItem.evlrBlock evlrs.length evlrs.sum] ∧
      ∀ c : Chunk, c.pts ≠ [] →
        (LasWriter.write (LasWriter.write_evlrs s evlrs).2 c).1
          = some WriterErr.writeAfterDone) := by
  constructor
  · intro hlt
    unfold LasWriter.write_evlrs
    rw [if_pos hlt]
  · intro hnlt hne pw hpw
    have hpos : 0 < evlrs.length := List.length_pos.mpr hne
    have hres : LasWriter.write_evlrs s evlrs = (none,
        { s with
          header := { s.header with
            number_of_evlr := evlrs.length
            start_of_first_evlr := destTell s.dest }
          point_writer := some ⟨true⟩
          done := true
          dest := s.dest ++ [DestItem.evlrBlock evlrs.length evlrs.sum] }) := by
      unfold LasWriter.write_evlrs
      rw [if_neg hnlt, if_pos hpos, hpw]
    rw [hres]
    refine ⟨rfl, rfl, rfl, rfl, rfl, rfl, ?_⟩
    intro c hc
    unfold LasWriter.write
    rw [if_neg (by simpa using hc), if_pos rfl]

/-- C6 witness: a 1.4 writer that has written points accepts one EVLR: no error, the
recorded start is the current destination position, and a later non-empty write
raises. -/
theorem write_evlrs_contract_witness :
    (LasWriter.write_evlrs exampleWriterOpen [10]).1 = none ∧
    (LasWriter.write_evlrs exampleWriterOpen [10]).2.header.start_of_first_evlr
      = destTell exampleWriterOpen.dest ∧
    (LasWriter.write (LasWriter.write_evlrs exampleWriterOpen [10]).2 ⟨6, 30, [⟨0, 0, 0, 1⟩]⟩).1
      = some WriterErr.writeAfterDone := by
  have T := (write_evlrs_contract exampleWriterOpen [10]).2 (by decide) (by decide)
    ⟨false⟩ rfl
  exact ⟨T.1, T.2.2.2.2.1, T.2.2.2.2.2.2 ⟨6, 30, [⟨0, 0, 0, 1⟩]⟩ (by decide)⟩

/-! ## Serialization round-trip lemmas -/

theorem encLE_length (w n : Nat) : (encLE w n).length = w := by
  induction w generalizing n with
  | zero => rfl
  | succ k ih => simp [encLE, ih]

theorem decLE_encLE (w n : Nat) : decLE (encLE w n) = n % 256 ^ w := by
  induction w generalizing n with
  | zero => simp [encLE, decLE, Nat.mod_one]
  | succ k ih =>
    show n % 256 + 256 * decLE (encLE k (n / 256)) = n % 256 ^ (k + 1)
    rw [ih (n / 256), pow_succ, mul_comm (256 ^ k) 256, Nat.mod_mul]

theorem take_append_len {α : Type} (l1 l2 : List α) (k : Nat) (h : l1.length = k) :
    (l1 ++ l2).take k = l1 := by
  subst h
  exact List.take_left l1 l2

theorem drop_append_len {α : Type} (l1 l2 : List α) (k : Nat) (h : l1.length = k) :
    (l1 ++ l2).drop k = l2 := by
  subst h
  exact List.drop_left l1 l2

theorem parseField_encLE (w n : Nat) (rest : List Nat) :
    parseField w (encLE w n ++ rest) = (n % 256 ^ w, rest) := by
  unfold parseField
  rw [take_append_len _ _ _ (encLE_length w n), drop_append_len _ _ _ (encLE_length w n),
    decLE_encLE]

theorem encodePoint0_length (p : PointRec0) : (encodePoint0 p).length = 20 := by
  simp [encodePoint0, encLE_length]

theorem decodePoint0_enc (p : PointRec0) (rest : List Nat) (hp : wfPoint0 p) :
    decodePoint0 (encodePoint0 p ++ rest) = (p, rest) := by
  obtain ⟨h1, h2, h3, h4, h5, h6, h7, h8, h9⟩ := hp
  simp only [encodePoint0, List.append_assoc, decodePoint0, parseField_encLE,
    Nat.mod_eq_of_lt h1, Nat.mod_eq_of_lt h2, Nat.mod_eq_of_lt h3, Nat.mod_eq_of_lt h4,
    Nat.mod_eq_of_lt h5, Nat.mod_eq_of_lt h6, Nat.mod_eq_of_lt h7, Nat.mod_eq_of_lt h8,
    Nat.mod_eq_of_lt h9]

theorem decodePoints0_enc :
    ∀ (ps : List PointRec0) (rest : List Nat), (∀ p ∈ ps, wfPoint0 p) →
      decodePoints0 ps.length (ps.flatMap encodePoint0 ++ rest) = some (ps, rest) := by
  intro ps
  induction ps with
  | nil =>
    intro rest _
    simp [decodePoints0]
  | cons p ps ih =>
    intro rest hps
    have hp := hps p (by simp)
    have hrest : ∀ q ∈ ps, wfPoint0 q := fun q hq => hps q (List.mem_cons_of_mem p hq)
    have hlen : 20 ≤ (encodePoint0 p ++ (ps.flatMap encodePoint0 ++ rest)).length := by
      rw [List.length_append, encodePoint0_length]
      omega
    simp only [List.flatMap_cons, List.append_assoc, List.length_cons, decodePoints0]
    rw [if_pos hlen, decodePoint0_enc p _ hp]
    rw [ih rest hrest]

theorem decodeVLR_enc (v : VLRrec) (rest : List Nat) (hv : wfVLR v) :
    decodeVLR (encodeVLR v ++ rest) = (v, rest) := by
  obtain ⟨h1, h2, h3, h4⟩ := hv
  simp only [encodeVLR, List.append_assoc, decodeVLR, parseField_encLE, Nat.zero_mod]
  rw [take_append_len _ _ _ h1, drop_append_len _ _ _ h1]
  simp only [parseField_encLE, Nat.mod_eq_of_lt h2, Nat.mod_eq_of_lt h4]
  rw [take_append_len _ _ _ h3, drop_append_len _ _ _ h3,
    take_append_len v.payload rest v.payload.length rfl,
    drop_append_len v.payload rest v.payload.length rfl]

theorem decodeVLRs_enc :
    ∀ (vlrs : List VLRrec) (rest : List Nat), (∀ v ∈ vlrs, wfVLR v) →
      decodeVLRs vlrs.length (vlrs.flatMap encodeVLR ++ rest) = (vlrs, rest) := by
  intro vlrs
  induction vlrs with
  | nil =>
    intro rest _
    simp [decodeVLRs]
  | cons v vlrs ih =>
    intro rest hvs
    simp only [List.flatMap_cons, List.append_assoc, List.length_cons, decodeVLRs]
    rw [decodeVLR_enc v _ (hvs v (by simp)),
      ih rest (fun w hw => hvs w (List.mem_cons_of_mem v hw))]

theorem decodeLHeader_enc (h : LHeader) (rest : List Nat) (h1 : h.point_data_format_id < 256 ^ 1)
    (h2 : h.header_size < 256 ^ 2) (h3 : h.offset_to_point_data < 256 ^ 4)
    (h4 : h.number_of_vlr < 256 ^ 4) (h5 : h.number_of_point_records < 256 ^ 4) :
    decodeLHeader (encodeLHeader h ++ rest) = (h, rest) := by
  simp only [encodeLHeader, List.append_assoc, decodeLHeader, parseField_encLE,
    Nat.mod_eq_of_lt h1, Nat.mod_eq_of_lt h2, Nat.mod_eq_of_lt h3, Nat.mod_eq_of_lt h4,
    Nat.mod_eq_of_lt h5]

/-! ## The raw_classification repack is the identity on in-sync aggregates -/

theorem bitpack_classification_unpack (b : Nat) (hb : b < 256) :
    bitpack_classification
      (bit_transform b CLASSIFICATION_LOW_BIT CLASSIFICATION_HIGH_BIT)
      (decide (bit_transform b SYNTHETIC_LOW_BIT SYNTHETIC_HIGH_BIT ≠ 0))
      (decide (bit_transform b KEY_POINT_LOW_BIT KEY_POINT_HIGH_BIT ≠ 0))
      (decide (bit_transform b WITHHELD_LOW_BIT WITHHELD_HIGH_BIT ≠ 0)) = b := by
  unfold bitpack_classification bit_transform CLASSIFICATION_LOW_BIT CLASSIFICATION_HIGH_BIT
    SYNTHETIC_LOW_BIT SYNTHETIC_HIGH_BIT KEY_POINT_LOW_BIT KEY_POINT_HIGH_BIT
    WITHHELD_LOW_BIT WITHHELD_HIGH_BIT
  norm_num
  rcases Nat.mod_two_eq_zero_or_one (b / 32) with hs | hs <;>
    rcases Nat.mod_two_eq_zero_or_one (b / 64) with hk | hk <;>
      rcases Nat.mod_two_eq_zero_or_one (b / 128) with hw | hw <;>
        simp [hs, hk, hw] <;> omega

theorem packClassList_sync :
    ∀ (ps : List PointRec0), (∀ p ∈ ps, wfPoint0 p) →
      packClassList ps
        (ps.map fun p =>
          bit_transform p.raw_classification CLASSIFICATION_LOW_BIT CLASSIFICATION_HIGH_BIT)
        (ps.map fun p =>
          decide (bit_transform p.raw_classification SYNTHETIC_LOW_BIT SYNTHETIC_HIGH_BIT ≠ 0))
        (ps.map fun p =>
          decide (bit_transform p.raw_classification KEY_POINT_LOW_BIT KEY_POINT_HIGH_BIT ≠ 0))
        (ps.map fun p =>
          decide (bit_transform p.raw_classification WITHHELD_LOW_BIT WITHHELD_HIGH_BIT ≠ 0))
      = ps := by
  intro ps
  induction ps with
  | nil =>
    intro _
    rfl
  | cons p ps ih =>
    intro hps
    have hb : p.raw_classification < 256 := by
      have := (hps p (by simp)).2.2.2.2.2.1
      simpa using this
    simp only [List.map_cons, packClassList]
    rw [bitpack_classification_unpack p.raw_classification hb,
      ih (fun q hq => hps q (List.mem_cons_of_mem p hq))]

theorem repack_classification_sync (L : LasDataM) (hpts : ∀ p ∈ L.points, wfPoint0 p)
    (hsync : L.arraysInSync) : L.repack_classification = L := by
  obtain ⟨_, _, _, _, hc, hsy, hk, hw⟩ := hsync
  unfold LasDataM.repack_classification
  rw [hc, hsy, hk, hw, packClassList_sync L.points hpts, ← hc, ← hsy, ← hk, ← hw]

/-- C2: writing a well-formed LasData aggregate uncompressed and reading the bytes
back yields the aggregate itself, up to the two header fields the write path
recomputes (number_of_vlr and offset_to_point_data): every point-record column, every
unpacked sub-field array, the VLR list and the point count come back identical. -/
theorem lasdata_write_read_roundtrip (L : LasDataM) (hwf : wfLasData L) :
    readLasData L.write_to = some
      { L with header := { L.header with
          number_of_vlr := L.vlrs.length
          offset_to_point_data := L.header.header_size + vlrTotalSize L.vlrs } } := by
  obtain ⟨hfmt, hhs, hoff, hnv, hnp, hplen, hpts, hvlrs, hsync⟩ := hwf
  have hrepack : L.repack_classification = L := repack_classification_sync L hpts hsync
  have hh1 : ({ L.header with
      number_of_vlr := L.vlrs.length
      offset_to_point_data := L.header.header_size + vlrTotalSize L.vlrs } :
        LHeader).point_data_format_id < 256 ^ 1 := by
    show L.header.point_data_format_id < 256 ^ 1
    simp only [pow_one]
    omega
  have hh5 : ({ L.header with
      number_of_vlr := L.vlrs.length
      offset_to_point_data := L.header.header_size + vlrTotalSize L.vlrs } :
        LHeader).number_of_point_records < 256 ^ 4 := by
    show L.header.number_of_point_records < 256 ^ 4
    rw [hnp]
    exact hplen
  unfold LasDataM.write_to
  rw [hrepack]
  unfold readLasData
  rw [List.append_assoc, decodeLHeader_enc _ _ hh1 hhs hoff hnv hh5]
  dsimp only
  rw [if_neg (by simp [is_point_format_compressed, Nat.not_le.mpr hfmt])]
  rw [decodeVLRs_enc L.vlrs _ hvlrs]
  rw [hnp, ← List.append_nil (L.points.flatMap encodePoint0), decodePoints0_enc L.points [] hpts]
  obtain ⟨h1, h2, h3, h4, h5, h6, h7, h8⟩ := hsync
  simp only [← h1, ← h2, ← h3, ← h4, ← h5, ← h6, ← h7, ← h8]

/-- C2 witness: the concrete one-point, one-VLR aggregate round-trips. -/
theorem lasdata_write_read_roundtrip_witness :
    readLasData exampleRoundtripLas.write_to = some
      { exampleRoundtripLas with header := { exampleRoundtripLas.header with
          number_of_vlr := exampleRoundtripLas.vlrs.length
          offset_to_point_data := exampleRoundtripLas.header.header_size
            + vlrTotalSize exampleRoundtripLas.vlrs } } :=
  lasdata_write_read_roundtrip exampleRoundtripLas (by decide)

/-! ## C1: the legacy write path loses bit_fields mutations -/

/-- C1: on the failing input (a one-point aggregate whose return_number array was set
to 1 after reading), LasData.write_to emits a bit_fields byte still holding the stale
buffer value 0 (the repack_bit_fields call is commented out), while repacking is
exactly what would have produced 1; the classification side is repacked as required. -/
theorem lasdata_write_to_loses_bitfields_mutation :
    exampleMutatedLas.return_number = [1] ∧
    (readLasData exampleMutatedLas.write_to).map LasDataM.return_number = some [0] ∧
    exampleMutatedLas.repack_bit_fields.points.map PointRec0.bit_fields = [1] ∧
    (readLasData exampleMutatedLas.write_to).map LasDataM.classification = some [0] := by
  decide

/-! ## Writer statistics lemmas (C3) -/

theorem foldl_max_swap (xs : List ℚ) :
    ∀ (a b : ℚ), xs.foldl max (max a b) = max a (xs.foldl max b) := by
  induction xs with
  | nil => intro a b; rfl
  | cons x xs ih =>
    intro a b
    show xs.foldl max (max (max a b) x) = max a (xs.foldl max (max b x))
    rw [max_assoc, ih]

theorem foldl_min_swap (xs : List ℚ) :
    ∀ (a b : ℚ), xs.foldl min (min a b) = min a (xs.foldl min b) := by
  induction xs with
  | nil => intro a b; rfl
  | cons x xs ih =>
    intro a b
    show xs.foldl min (min (min a b) x) = min a (xs.foldl min (min b x))
    rw [min_assoc, ih]

theorem optListMax_append (l : List ℚ) (x : ℚ) (xs : List ℚ) :
    optListMax (l ++ x :: xs) = omax (optListMax l) (xs.foldl max x) := by
  cases l with
  | nil => rfl
  | cons a as =>
    show some (((as ++ x :: xs).foldl max a)) = some (max (as.foldl max a) (xs.foldl max x))
    rw [List.foldl_append, List.foldl_cons, foldl_max_swap]

theorem optListMin_append (l : List ℚ) (x : ℚ) (xs : List ℚ) :
    optListMin (l ++ x :: xs) = omin (optListMin l) (xs.foldl min x) := by
  cases l with
  | nil => rfl
  | cons a as =>
    show some (((as ++ x :: xs).foldl min a)) = some (min (as.foldl min a) (xs.foldl min x))
    rw [List.foldl_append, List.foldl_cons, foldl_min_swap]

theorem foldl_int_max_scaled (s o : ℚ) (hs : 0 ≤ s) (l : List ℤ) :
    ∀ (a : ℤ), ((l.foldl max a : ℤ) : ℚ) * s + o
      = (l.map fun r : ℤ => (r : ℚ) * s + o).foldl max ((a : ℚ) * s + o) := by
  induction l with
  | nil => intro a; rfl
  | cons r l ih =>
    intro a
    show ((l.foldl max (max a r) : ℤ) : ℚ) * s + o
      = (l.map fun q : ℤ => (q : ℚ) * s + o).foldl max (max ((a : ℚ) * s + o) ((r : ℚ) * s + o))
    rw [ih (max a r)]
    congr 1
    rw [Int.cast_max, max_mul_of_nonneg _ _ hs, max_add_add_right]

theorem foldl_int_min_scaled (s o : ℚ) (hs : 0 ≤ s) (l : List ℤ) :
    ∀ (a : ℤ), ((l.foldl min a : ℤ) : ℚ) * s + o
      = (l.map fun r : ℤ => (r : ℚ) * s + o).foldl min ((a : ℚ) * s + o) := by
  induction l with
  | nil => intro a; rfl
  | cons r l ih =>
    intro a
    show ((l.foldl min (min a r) : ℤ) : ℚ) * s + o
      = (l.map fun q : ℤ => (q : ℚ) * s + o).foldl min (min ((a : ℚ) * s + o) ((r : ℚ) * s + o))
    rw [ih (min a r)]
    congr 1
    rw [Int.cast_min, min_mul_of_nonneg _ _ hs, min_add_add_right]

theorem chunkRawMax_eq (f : WPoint → ℤ) (p : WPoint) (rest : List WPoint) :
    chunkRawMax f (p :: rest) = (rest.map f).foldl max (f p) := by
  show rest.foldl (fun a q => max a (f q)) (f p) = _
  rw [List.foldl_map]

theorem chunkRawMin_eq (f : WPoint → ℤ) (p : WPoint) (rest : List WPoint) :
    chunkRawMin f (p :: rest) = (rest.map f).foldl min (f p) := by
  show rest.foldl (fun a q => min a (f q)) (f p) = _
  rw [List.foldl_map]

theorem stat_max_step (g : WPoint → ℤ) (s o : ℚ) (hs : 0 ≤ s) (P : List WPoint)
    (p : WPoint) (rest : List WPoint) :
    omax (optListMax (P.map fun q => (g q : ℚ) * s + o))
      ((chunkRawMax g (p :: rest) : ℚ) * s + o)
    = optListMax ((P ++ p :: rest).map fun q => (g q : ℚ) * s + o) := by
  rw [chunkRawMax_eq, foldl_int_max_scaled s o hs, List.map_map, List.map_append,
    List.map_cons, optListMax_append]
  rfl

theorem stat_min_step (g : WPoint → ℤ) (s o : ℚ) (hs : 0 ≤ s) (P : List WPoint)
    (p : WPoint) (rest : List WPoint) :
    omin (optListMin (P.map fun q => (g q : ℚ) * s + o))
      ((chunkRawMin g (p :: rest) : ℚ) * s + o)
    = optListMin ((P ++ p :: rest).map fun q => (g q : ℚ) * s + o) := by
  rw [chunkRawMin_eq, foldl_int_min_scaled s o hs, List.map_map, List.map_append,
    List.map_cons, optListMin_append]
  rfl

theorem foldReturns_length (pts : List WPoint) :
    ∀ (tbl : List Nat), (foldReturns tbl pts).length = tbl.length := by
  induction pts with
  | nil => intro tbl; rfl
  | cons p pts ih =>
    intro tbl
    show (foldReturns (if p.return_number < tbl.length then _ else tbl) pts).length = _
    by_cases hrn : p.return_number < tbl.length
    · rw [if_pos hrn, ih, List.length_set]
    · rw [if_neg hrn, ih]

theorem sum_set_incr (l : List Nat) (i : Nat) (h : i < l.length) :
    (l.set i (l.getD i 0 + 1)).sum = l.sum + 1 := by
  induction l generalizing i with
  | nil => simp at h
  | cons x xs ih =>
    cases i with
    | zero => simp [List.set]; omega
    | succ n =>
      simp only [List.set, List.sum_cons, List.getD_cons_succ]
      rw [ih n (by simpa using h)]
      omega

theorem foldReturns_sum (pts : List WPoint) :
    ∀ (tbl : List Nat), (foldReturns tbl pts).sum
      = tbl.sum + (pts.filter fun p => p.return_number < tbl.length).length := by
  induction pts with
  | nil => intro tbl; simp [foldReturns]
  | cons p pts ih =>
    intro tbl
    show (foldReturns (if p.return_number < tbl.length then _ else tbl) pts).sum = _
    by_cases hrn : p.return_number < tbl.length
    · have hpos : 0 < tbl.length := by omega
      have hidx : (p.return_number + tbl.length - 1) % tbl.length < tbl.length :=
        Nat.mod_lt _ hpos
      rw [if_pos hrn, ih, sum_set_incr _ _ hidx, List.length_set]
      have hfilter : ((p :: pts).filter fun q => q.return_number < tbl.length)
          = p :: (pts.filter fun q => q.return_number < tbl.length) := by
        simp [List.filter_cons, hrn]
      rw [hfilter, List.length_cons]
      omega
    · rw [if_neg hrn, ih]
      have hfilter : ((p :: pts).filter fun q => q.return_number < tbl.length)
          = pts.filter fun q => q.return_number < tbl.length := by
        simp [List.filter_cons, hrn]
      rw [hfilter]

theorem headerStats_update (h0 : WHeader) (h : WHeader) (P pts : List WPoint)
    (hst : HeaderStats h0 h P) (hne : pts ≠ []) :
    HeaderStats h0 (updateHeader h pts) (P ++ pts) := by
  obtain ⟨hv, hxs, hys, hzs, hxo, hyo, hzo, hpc, hxM, hyM, hzM, hxm, hym, hzm, hlen, hsum⟩ := hst
  cases pts with
  | nil => exact absurd rfl hne
  | cons p rest =>
    unfold updateHeader
    refine ⟨hv, hxs, hys, hzs, hxo, hyo, hzo, ?_, ?_, ?_, ?_, ?_, ?_, ?_, ?_, ?_⟩
    · show h.point_count + (p :: rest).length = (P ++ p :: rest).length
      simp [hpc]
    · intro hx
      show omax h.x_max ((chunkRawMax (fun q => q.X) (p :: rest) : ℚ) * h.x_scale + h.x_offset)
        = _
      rw [hxs, hxo, hxM hx]
      exact stat_max_step (fun q => q.X) h0.x_scale h0.x_offset hx P p rest
    · intro hy
      show omax h.y_max ((chunkRawMax (fun q => q.Y) (p :: rest) : ℚ) * h.y_scale + h.y_offset)
        = _
      rw [hys, hyo, hyM hy]
      exact stat_max_step (fun q => q.Y) h0.y_scale h0.y_offset hy P p rest
    · intro hz
      show omax h.z_max ((chunkRawMax (fun q => q.Z) (p :: rest) : ℚ) * h.z_scale + h.z_offset)
        = _
      rw [hzs, hzo, hzM hz]
      exact stat_max_step (fun q => q.Z) h0.z_scale h0.z_offset hz P p rest
    · intro hx
      show omin h.x_min ((chunkRawMin (fun q => q.X) (p :: rest) : ℚ) * h.x_scale + h.x_offset)
        = _
      rw [hxs, hxo, hxm hx]
      exact stat_min_step (fun q => q.X) h0.x_scale h0.x_offset hx P p rest
    · intro hy
      show omin h.y_min ((chunkRawMin (fun q => q.Y) (p :: rest) : ℚ) * h.y_scale + h.y_offset)
        = _
      rw [hys, hyo, hym hy]
      exact stat_min_step (fun q => q.Y) h0.y_scale h0.y_offset hy P p rest
    · intro hz
      show omin h.z_min ((chunkRawMin (fun q => q.Z) (p :: rest) : ℚ) * h.z_scale + h.z_offset)
        = _
      rw [hzs, hzo, hzm hz]
      exact stat_min_step (fun q => q.Z) h0.z_scale h0.z_offset hz P p rest
    · show (foldReturns h.number_of_points_by_return (p :: rest)).length = _
      rw [foldReturns_length, hlen]
    · show (foldReturns h.number_of_points_by_return (p :: rest)).sum = _
      rw [foldReturns_sum, hsum, hlen, List.filter_append, List.length_append]

theorem writerInv_new (h0 : WHeader) (vlrs : List Nat) (f : Nat) :
    WriterInv h0 f (LasWriter.new h0 vlrs) [] := by
  refine ⟨rfl, ?_, ?_⟩
  · refine ⟨rfl, rfl, rfl, rfl, rfl, rfl, rfl, rfl, fun _ => rfl, fun _ => rfl,
      fun _ => rfl, fun _ => rfl, fun _ => rfl, fun _ => rfl, ?_, ?_⟩
    · show (List.replicate (returnSlots h0.version) 0).length = returnSlots h0.version
      simp
    · show (List.replicate (returnSlots h0.version) 0).sum = _
      simp
  · intro hpc
    exact absurd rfl hpc

theorem writerInv_step (h0 : WHeader) (f : Nat) (s : WState) (P : List WPoint) (c : Chunk)
    (hInv : WriterInv h0 f s P) (hcf : c.fmt = f)
    (hcompat : versionCompatibleWithFmt f h0.version = true) :
    WriterInv h0 f ((LasWriter.write s c).2) (P ++ c.pts) := by
  obtain ⟨hdone, hst, hfmt⟩ := hInv
  by_cases hemp : c.pts.isEmpty
  · unfold LasWriter.write
    rw [if_pos hemp]
    rw [List.isEmpty_iff.mp hemp, List.append_nil]
    exact ⟨hdone, hst, hfmt⟩
  · have hne : c.pts ≠ [] := by simpa [List.isEmpty_iff] using hemp
    unfold LasWriter.write
    rw [if_neg (by simpa using hemp), if_neg (by simp [hdone])]
    by_cases hpc : s.header.point_count = 0
    · have hPnil : P = [] := by
        rw [← List.length_eq_zero, ← hst.2.2.2.2.2.2.2.1, hpc]
      rw [if_pos hpc, if_pos (by rw [hst.1, hcf]; exact hcompat)]
      subst hPnil
      refine ⟨hdone, ?_, fun _ => by show some c.fmt = some f; rw [hcf]⟩
      exact headerStats_update h0 _ [] c.pts hst hne
    · rw [if_neg hpc, if_neg (by simp [hfmt hpc, hcf])]
      exact ⟨hdone, headerStats_update h0 s.header P c.pts hst hne,
        fun _ => hfmt hpc⟩

theorem writerInv_writeAll (h0 : WHeader) (f : Nat) (cs : List Chunk) :
    ∀ (s : WState) (P : List WPoint), WriterInv h0 f s P → (∀ c ∈ cs, c.fmt = f) →
      versionCompatibleWithFmt f h0.version = true →
      WriterInv h0 f (writeAll s cs) (P ++ cs.flatMap Chunk.pts) := by
  induction cs with
  | nil =>
    intro s P hInv _ _
    simpa using hInv
  | cons c cs ih =>
    intro s P hInv hcs hcompat
    have hstep := writerInv_step h0 f s P c hInv (hcs c (by simp)) hcompat
    have := ih (LasWriter.write s c).2 (P ++ c.pts) hstep
      (fun d hd => hcs d (List.mem_cons_of_mem c hd)) hcompat
    simpa [writeAll, List.append_assoc] using this

theorem close_header (s : WState) : (LasWriter.close s).header = s.header := by
  unfold LasWriter.close
  cases s.point_writer <;> rfl

/-- C3 amended: after a sequence of same-format chunks is written and the writer
closed, the header's point_count is the total number of points written,
unconditionally; on each axis whose scale is nonnegative, that axis's min/max
accumulators hold exactly the extrema of the scaled coordinates over all written
points (none when no point was written); the per-return table sums to at most
point_count, unconditionally, with equality guaranteed when every written
return_number is strictly below the number of slots (5 before 1.4, 15 from 1.4) —
the source drops the value equal to the slot count even though its slot exists, and
folds the raw column extremum through the scale, which inverts that axis's extremum
for a negative scale. -/
theorem writer_header_stats_contract (h0 : WHeader) (vlrs : List Nat) (cs : List Chunk)
    (f : Nat) (hfmt : ∀ c ∈ cs, c.fmt = f)
    (hcompat : versionCompatibleWithFmt f h0.version = true) :
    (LasWriter.close (writeAll (LasWriter.new h0 vlrs) cs)).header.point_count
      = (cs.flatMap Chunk.pts).length ∧
    (0 ≤ h0.x_scale →
      (LasWriter.close (writeAll (LasWriter.new h0 vlrs) cs)).header.x_max
        = optListMax ((cs.flatMap Chunk.pts).map fun p =>
            (p.X : ℚ) * h0.x_scale + h0.x_offset)) ∧
    (0 ≤ h0.y_scale →
      (LasWriter.close (writeAll (LasWriter.new h0 vlrs) cs)).header.y_max
        = optListMax ((cs.flatMap Chunk.pts).map fun p =>
            (p.Y : ℚ) * h0.y_scale + h0.y_offset)) ∧
    (0 ≤ h0.z_scale →
      (LasWriter.close (writeAll (LasWriter.new h0 vlrs) cs)).header.z_max
        = optListMax ((cs.flatMap Chunk.pts).map fun p =>
            (p.Z : ℚ) * h0.z_scale + h0.z_offset)) ∧
    (0 ≤ h0.x_scale →
      (LasWriter.close (writeAll (LasWriter.new h0 vlrs) cs)).header.x_min
        = optListMin ((cs.flatMap Chunk.pts).map fun p =>
            (p.X : ℚ) * h0.x_scale + h0.x_offset)) ∧
    (0 ≤ h0.y_scale →
      (LasWriter.close (writeAll (LasWriter.new h0 vlrs) cs)).header.y_min
        = optListMin ((cs.flatMap Chunk.pts).map fun p =>
            (p.Y : ℚ) * h0.y_scale + h0.y_offset)) ∧
    (0 ≤ h0.z_scale →
      (LasWriter.close (writeAll (LasWriter.new h0 vlrs) cs)).header.z_min
        = optListMin ((cs.flatMap Chunk.pts).map fun p =>
            (p.Z : ℚ) * h0.z_scale + h0.z_offset)) ∧
    (LasWriter.close (writeAll (LasWriter.new h0 vlrs) cs)).header.number_of_points_by_return.sum
      ≤ (LasWriter.close (writeAll (LasWriter.new h0 vlrs) cs)).header.point_count ∧
    ((∀ p ∈ cs.flatMap Chunk.pts, p.return_number < returnSlots h0.version) →
      (LasWriter.close (writeAll (LasWriter.new h0 vlrs) cs)).header.number_of_points_by_return.sum
        = (LasWriter.close (writeAll (LasWriter.new h0 vlrs) cs)).header.point_count) := by
  have hInv := writerInv_writeAll h0 f cs (LasWriter.new h0 vlrs) []
    (writerInv_new h0 vlrs f) hfmt hcompat
  rw [List.nil_append] at hInv
  obtain ⟨_, hst, _⟩ := hInv
  obtain ⟨_, _, _, _, _, _, _, hpc, hxM, hyM, hzM, hxm, hym, hzm, _, hsum⟩ := hst
  rw [close_header]
  refine ⟨hpc, hxM, hyM, hzM, hxm, hym, hzm, ?_, ?_⟩
  · rw [hsum, hpc]
    exact List.length_filter_le _ _
  · intro hall
    rw [hsum, hpc]
    congr 1
    exact List.filter_eq_self.mpr fun p hp => by simpa using hall p hp

/-- C3 counterexample: under version 1.2 (a 5-slot table), writing one chunk of two
points with raw X values 0 and 1, x scale -1 and return_number 5 and closing leaves
point_count = 2 but a per-return sum of 0 (return 5 is dropped although slot 5
exists), and an x_max of -1 where the maximum of the scaled X coordinates is 0: the
claim's extrema and equality statements are false at this input. -/
theorem writer_header_stats_counterexample :
    (LasWriter.close (writeAll (LasWriter.new cexHeader []) [cexChunk])).header.point_count
      = 2 ∧
    (LasWriter.close (writeAll (LasWriter.new cexHeader []) [cexChunk])).header.x_max
      = some (-1) ∧
    optListMax (cexChunk.pts.map fun p => (p.X : ℚ) * cexHeader.x_scale + cexHeader.x_offset)
      = some 0 ∧
    (LasWriter.close (writeAll (LasWriter.new cexHeader []) [cexChunk])).header.x_max
      ≠ optListMax (cexChunk.pts.map fun p =>
          (p.X : ℚ) * cexHeader.x_scale + cexHeader.x_offset) ∧
    (LasWriter.close
        (writeAll (LasWriter.new cexHeader []) [cexChunk])).header.number_of_points_by_return.sum
      = 0 := by
  have hstate : writeAll (LasWriter.new cexHeader []) [cexChunk]
      = (LasWriter.write (LasWriter.new cexHeader []) cexChunk).2 := rfl
  have hmax : (max (0 : ℤ) 1) = 1 := by simp
  have hmin : (min (0 : ℤ) 1) = 0 := by simp
  refine ⟨?_, ?_, ?_, ?_, ?_⟩
  · rw [hstate]
    simp [LasWriter.write, LasWriter.new, LasWriter.close, WHeader.partial_reset,
      writeInitialHeaderAndVlrs, updateHeader, cexHeader, cexChunk,
      versionCompatibleWithFmt, versionLt, returnSlots]
  · rw [hstate]
    simp [LasWriter.write, LasWriter.new, LasWriter.close, WHeader.partial_reset,
      writeInitialHeaderAndVlrs, updateHeader, cexHeader, cexChunk,
      versionCompatibleWithFmt, versionLt, returnSlots, chunkRawMax, omax, hmax]
  · simp [optListMax, cexHeader, cexChunk]
  · rw [hstate]
    simp [LasWriter.write, LasWriter.new, LasWriter.close, WHeader.partial_reset,
      writeInitialHeaderAndVlrs, updateHeader, cexHeader, cexChunk,
      versionCompatibleWithFmt, versionLt, returnSlots, chunkRawMax, omax, hmax,
      optListMax]
  · rw [hstate]
    simp [LasWriter.write, LasWriter.new, LasWriter.close, WHeader.partial_reset,
      writeInitialHeaderAndVlrs, updateHeader, cexHeader, cexChunk,
      versionCompatibleWithFmt, versionLt, returnSlots, foldReturns]

/-- C3 witness: two format-6 chunks of one point each, written under a 1.4 header with
unit scales, close to a header whose statistics match the amended contract, with every
hypothesis (same format, compatible version, per-axis nonnegative scale, in-range
return numbers) discharged concretely. -/
theorem writer_header_stats_contract_witness :
    (LasWriter.close (writeAll (LasWriter.new exampleHeader14 []) exampleChunks)).header.point_count
      = (exampleChunks.flatMap Chunk.pts).length ∧
    (LasWriter.close (writeAll (LasWriter.new exampleHeader14 []) exampleChunks)).header.x_max
      = optListMax ((exampleChunks.flatMap Chunk.pts).map fun p =>
          (p.X : ℚ) * exampleHeader14.x_scale + exampleHeader14.x_offset) ∧
    (LasWriter.close (writeAll (LasWriter.new exampleHeader14 []) exampleChunks)).header.y_max
      = optListMax ((exampleChunks.flatMap Chunk.pts).map fun p =>
          (p.Y : ℚ) * exampleHeader14.y_scale + exampleHeader14.y_offset) ∧
    (LasWriter.close (writeAll (LasWriter.new exampleHeader14 []) exampleChunks)).header.z_max
      = optListMax ((exampleChunks.flatMap Chunk.pts).map fun p =>
          (p.Z : ℚ) * exampleHeader14.z_scale + exampleHeader14.z_offset) ∧
    (LasWriter.close (writeAll (LasWriter.new exampleHeader14 []) exampleChunks)).header.x_min
      = optListMin ((exampleChunks.flatMap Chunk.pts).map fun p =>
          (p.X : ℚ) * exampleHeader14.x_scale + exampleHeader14.x_offset) ∧
    (LasWriter.close (writeAll (LasWriter.new exampleHeader14 []) exampleChunks)).header.y_min
      = optListMin ((exampleChunks.flatMap Chunk.pts).map fun p =>
          (p.Y : ℚ) * exampleHeader14.y_scale + exampleHeader14.y_offset) ∧
    (LasWriter.close (writeAll (LasWriter.new exampleHeader14 []) exampleChunks)).header.z_min
      = optListMin ((exampleChunks.flatMap Chunk.pts).map fun p =>
          (p.Z : ℚ) * exampleHeader14.z_scale + exampleHeader14.z_offset) ∧
    (LasWriter.close
        (writeAll (LasWriter.new exampleHeader14 []) exampleChunks)).header.number_of_points_by_return.sum
      ≤ (LasWriter.close
        (writeAll (LasWriter.new exampleHeader14 []) exampleChunks)).header.point_count ∧
    (LasWriter.close
        (writeAll (LasWriter.new exampleHeader14 []) exampleChunks)).header.number_of_points_by_return.sum
      = (LasWriter.close
        (writeAll (LasWriter.new exampleHeader14 []) exampleChunks)).header.point_count := by
  have T := writer_header_stats_contract exampleHeader14 [] exampleChunks 6
    (by decide) (by decide)
  exact ⟨T.1, T.2.1 (by norm_num [exampleHeader14]), T.2.2.1 (by norm_num [exampleHeader14]),
    T.2.2.2.1 (by norm_num [exampleHeader14]), T.2.2.2.2.1 (by norm_num [exampleHeader14]),
    T.2.2.2.2.2.1 (by norm_num [exampleHeader14]), T.2.2.2.2.2.2.1 (by norm_num [exampleHeader14]),
    T.2.2.2.2.2.2.2.1, T.2.2.2.2.2.2.2.2 (by decide)⟩

end Pylas
